import Mathlib

/-!
# httpadaptor: conversion of a net/http request into a fasthttp request

A shallow embedding of `request.go`.  Go strings are Lean strings, a Go `int`
is an `Int` together with the platform width `intSize` (32 or 64), pointers
that may be nil are `Option`s, and a mutated destination is returned as the
new state.

The source side (`net/http`, `net/url`) is plain data.  The destination side
(`fasthttp`) is not part of the sources; its state is modelled from the data
model of the specification (section 3 and the design notes of section 9):
a request line, a structured URI, an ordered multi-map of headers keyed by the
exact-cased name, a body that is unset, buffered or streaming, and a
structured remote address.  Every destination method called by `request.go`
is the field update that the specification describes for it.
-/

set_option autoImplicit false

/-! ## Source side -/

namespace io

/-- A value of the interface `io.ReadCloser`: nil, the sentinel that `net/http`
exports as `http.NoBody`, or any other stream, identified by a number (the
converter never reads from it). -/
inductive ReadCloser where
  | nil
  | NoBody
  | stream (id : Nat)
deriving DecidableEq, Repr

end io

namespace url

/-- The `url.Userinfo` value: a username and an optional password. -/
structure Userinfo where
  username : String
  password : String
  passwordSet : Bool
deriving DecidableEq, Repr

/-- The method `Userinfo.Username`. -/
def Userinfo.Username (u : Userinfo) : String := u.username

/-- The method `Userinfo.Password`: the password and whether one is set. -/
def Userinfo.Password (u : Userinfo) : String × Bool := (u.password, u.passwordSet)

/-- The fields of `url.URL` that the converter reads. -/
structure URL where
  Scheme : String
  Opaque : String
  User : Option Userinfo
  Host : String
  Path : String
  RawPath : String
  RawQuery : String
  Fragment : String
deriving DecidableEq, Repr

end url

namespace http

/-- The value of `http.MethodGet`. -/
def MethodGet : String := "GET"

/-- The sentinel `http.NoBody`. -/
def NoBody : io.ReadCloser := io.ReadCloser.NoBody

/-- The type `http.Header`, a map from names to value lists.  The list order
is the order in which `range` happens to visit the map; a well-formed map has
pairwise distinct keys (`Header.WF`). -/
abbrev Header := List (String × List String)

/-- Keys of a Go map are pairwise distinct. -/
def Header.WF (h : Header) : Prop := (h.map Prod.fst).Nodup

instance (h : Header) : Decidable (Header.WF h) := by
  unfold Header.WF; infer_instance

/-- The map index expression `h[name]`: the value list stored under the key,
the nil list when the key is absent. -/
def Header.values (h : Header) (name : String) : List String :=
  match h with
  | [] => []
  | (k, vs) :: rest => if k = name then vs else Header.values rest name

/-- The fields of `http.Request` that the converter reads. -/
structure Request where
  Method : String
  URL : Option url.URL
  Proto : String
  Header : Header
  Body : io.ReadCloser
  ContentLength : Int
  TransferEncoding : List String
  Close : Bool
  Host : String
  RemoteAddr : String
  RequestURI : String
deriving DecidableEq, Repr

end http

namespace net

/-- An IP address as a byte list; the nil address is the empty list. -/
abbrev IP := List Nat

/-- The type `net.TCPAddr`. -/
structure TCPAddr where
  IP : IP
  Port : Int
  Zone : String
deriving DecidableEq, Repr

/-- The zero value `net.TCPAddr{}`. -/
def TCPAddr.zero : TCPAddr := { IP := [], Port := 0, Zone := "" }

end net

/-! ## Destination side -/

namespace fasthttp

/-- The value of `fasthttp.HeaderTransferEncoding`. -/
def HeaderTransferEncoding : String := "Transfer-Encoding"

/-- Modelled from the spec: the destination URI type `fasthttp.URI` is not part
of the sources.  It is the structured URI of the data model: scheme, host,
userinfo, path, query and fragment, each empty while unset. -/
structure URI where
  scheme : String
  host : String
  username : String
  password : String
  hash : String
  path : String
  queryString : String
deriving DecidableEq, Repr

/-- Modelled from the spec: the cleared URI, every component unset. -/
def URI.reset : URI :=
  { scheme := "", host := "", username := "", password := "", hash := "",
    path := "", queryString := "" }

/-- Modelled from the spec: `URI.SetScheme` stores the scheme. -/
def URI.SetScheme (u : URI) (s : String) : URI := { u with scheme := s }

/-- Modelled from the spec: `URI.SetHost` stores the host. -/
def URI.SetHost (u : URI) (s : String) : URI := { u with host := s }

/-- Modelled from the spec: `URI.SetUsername` stores the username. -/
def URI.SetUsername (u : URI) (s : String) : URI := { u with username := s }

/-- Modelled from the spec: `URI.SetPassword` stores the password. -/
def URI.SetPassword (u : URI) (s : String) : URI := { u with password := s }

/-- Modelled from the spec: `URI.SetHash` stores the fragment. -/
def URI.SetHash (u : URI) (s : String) : URI := { u with hash := s }

/-- Modelled from the spec: `URI.SetPath` stores the path. -/
def URI.SetPath (u : URI) (s : String) : URI := { u with path := s }

/-- Modelled from the spec: `URI.SetQueryString` stores the query string. -/
def URI.SetQueryString (u : URI) (s : String) : URI := { u with queryString := s }

/-- Modelled from the spec: the destination header type
`fasthttp.RequestHeader` is not part of the sources.  It holds the request
line (method, target, protocol), the connection-close flag, the content-length
policy (`none` is the destination's own default) and the headers as an ordered
multi-map keyed by the exact-cased name. -/
structure RequestHeader where
  disableNormalizing : Bool
  method : String
  proto : String
  requestURI : String
  connectionClose : Bool
  contentLength : Option Int
  h : List (String × String)
deriving DecidableEq, Repr

/-- Modelled from the spec: the cleared header store. -/
def RequestHeader.reset : RequestHeader :=
  { disableNormalizing := false, method := "", proto := "", requestURI := "",
    connectionClose := false, contentLength := none, h := [] }

/-- Modelled from the spec: `DisableNormalizing` puts the store into the mode
that keeps the casing the caller supplies. -/
def RequestHeader.DisableNormalizing (hd : RequestHeader) : RequestHeader :=
  { hd with disableNormalizing := true }

/-- Modelled from the spec: `SetMethod` stores the method. -/
def RequestHeader.SetMethod (hd : RequestHeader) (m : String) : RequestHeader :=
  { hd with method := m }

/-- Modelled from the spec: `SetProtocol` stores the protocol string. -/
def RequestHeader.SetProtocol (hd : RequestHeader) (p : String) : RequestHeader :=
  { hd with proto := p }

/-- Modelled from the spec: `SetRequestURI` stores the raw request target. -/
def RequestHeader.SetRequestURI (hd : RequestHeader) (s : String) : RequestHeader :=
  { hd with requestURI := s }

/-- Modelled from the spec: `SetConnectionClose` sets the close flag. -/
def RequestHeader.SetConnectionClose (hd : RequestHeader) : RequestHeader :=
  { hd with connectionClose := true }

/-- Modelled from the spec: `ResetConnectionClose` clears the close flag. -/
def RequestHeader.ResetConnectionClose (hd : RequestHeader) : RequestHeader :=
  { hd with connectionClose := false }

/-- Modelled from the spec: `SetContentLength` stores the content length,
`-1` being the unknown sentinel. -/
def RequestHeader.SetContentLength (hd : RequestHeader) (n : Int) : RequestHeader :=
  { hd with contentLength := some n }

/-- Modelled from the spec: `Del` removes every header stored under the name. -/
def RequestHeader.Del (hd : RequestHeader) (name : String) : RequestHeader :=
  { hd with h := hd.h.filter (fun kv => decide (kv.1 ≠ name)) }

/-- Modelled from the spec: `Add` appends one value under the name, keeping
earlier values and the casing of both.  This is the store in the
case-preserving mode that `ConvertRequest` switches on before its first call
of `Add`; the data model of the specification names no header that the store
would treat differently, so none is treated differently here. -/
def RequestHeader.Add (hd : RequestHeader) (name value : String) : RequestHeader :=
  { hd with h := hd.h ++ [(name, value)] }

/-- Modelled from the spec: the values stored under exactly this name, in
order. -/
def RequestHeader.PeekAll (hd : RequestHeader) (name : String) : List String :=
  (hd.h.filter (fun kv => decide (kv.1 = name))).map Prod.snd

/-- Modelled from the spec: `Peek`, the first value stored under the name, the
empty string when there is none. -/
def RequestHeader.Peek (hd : RequestHeader) (name : String) : String :=
  (hd.PeekAll name).headD ""

/-- Modelled from the spec: the body of the destination, a tagged variant that
is unset after a reset, an explicit buffered body, or a stream with its
declared size. -/
inductive Body where
  | unset
  | buffered (data : List Nat)
  | stream (r : io.ReadCloser) (size : Int)
deriving DecidableEq, Repr

/-- Modelled from the spec: the destination type `fasthttp.Request` is not part
of the sources: header store, structured URI and body. -/
structure Request where
  Header : RequestHeader
  uri : URI
  body : Body
deriving DecidableEq, Repr

/-- Modelled from the spec: `Request.Reset` clears the destination, whatever it
held before. -/
def Request.Reset (_req : Request) : Request :=
  { Header := RequestHeader.reset, uri := URI.reset, body := Body.unset }

/-- Modelled from the spec: `Request.URI` hands out the structured URI. -/
def Request.URI (req : Request) : URI := req.uri

/-- Modelled from the spec: `Request.SetRequestURI` stores the raw request
target on the request line. -/
def Request.SetRequestURI (req : Request) (s : String) : Request :=
  { req with Header := req.Header.SetRequestURI s }

/-- Modelled from the spec: `Request.SetHost` stores the host, which the
destination carries in its URI and not as a header. -/
def Request.SetHost (req : Request) (s : String) : Request :=
  { req with uri := req.uri.SetHost s }

/-- Modelled from the spec: `Request.SetBodyStream` attaches a streaming body
with its declared size. -/
def Request.SetBodyStream (req : Request) (r : io.ReadCloser) (size : Int) : Request :=
  { req with body := Body.stream r size }

/-- Modelled from the spec: `Request.SetBody` sets an explicit buffered body. -/
def Request.SetBody (req : Request) (data : List Nat) : Request :=
  { req with body := Body.buffered data }

/-- Modelled from the spec: the destination type `fasthttp.RequestCtx`: the
request and the remote address, `none` while no address was attached. -/
structure RequestCtx where
  Request : Request
  remoteAddr : Option net.TCPAddr
deriving DecidableEq, Repr

/-- Modelled from the spec: `RequestCtx.SetRemoteAddr` attaches the address. -/
def RequestCtx.SetRemoteAddr (ctx : RequestCtx) (a : net.TCPAddr) : RequestCtx :=
  { ctx with remoteAddr := some a }

/-- Modelled from the spec: the getter `RequestCtx.Method`. -/
def RequestCtx.Method (ctx : RequestCtx) : String := ctx.Request.Header.method

/-- Modelled from the spec: the getter `RequestCtx.Host`. -/
def RequestCtx.Host (ctx : RequestCtx) : String := ctx.Request.uri.host

/-- Modelled from the spec: the getter `RequestCtx.RequestURI`. -/
def RequestCtx.RequestURI (ctx : RequestCtx) : String := ctx.Request.Header.requestURI

/-- Modelled from the spec: the getter `RequestCtx.URI`. -/
def RequestCtx.URI (ctx : RequestCtx) : URI := ctx.Request.uri

end fasthttp

/-! ## Standard-library functions called by the converter -/

namespace strings

/-- The case-folding class of a character: an upper-case ASCII letter folds to
its lower-case form, and the two other characters whose simple fold meets
ASCII (the Kelvin sign and the long s) fold to `k` and `s`. -/
def foldKey (c : Char) : Char :=
  if 'A' ≤ c ∧ c ≤ 'Z' then Char.ofNat (c.toNat + 32)
  else if c = '\u212a' then 'k'
  else if c = '\u017f' then 's'
  else c

/-- Rune-wise comparison of `strings.EqualFold`. -/
def equalFoldRunes : List Char → List Char → Bool
  | [], [] => true
  | a :: as, b :: bs => (foldKey a == foldKey b) && equalFoldRunes as bs
  | _, _ => false

/-- The function `strings.EqualFold`, equality under simple Unicode case
folding.  The folding table is restricted to the classes that meet ASCII, so
the result is exact whenever one argument is an ASCII string, as it is at the
only call site (`"chunked"`). -/
def EqualFold (s t : String) : Bool := equalFoldRunes s.data t.data

end strings

namespace strconv

/-- Value of a run of decimal digits; `none` for the empty run and for a run
with a character that is not a digit. -/
def digitsValue : List Char → Nat → Option Nat
  | [], _ => none
  | [c], acc => if '0' ≤ c ∧ c ≤ '9' then some (acc * 10 + (c.toNat - 48)) else none
  | c :: rest, acc =>
    if '0' ≤ c ∧ c ≤ '9' then digitsValue rest (acc * 10 + (c.toNat - 48)) else none

/-- The function `strconv.Atoi`: an optional sign, then decimal digits; `none`
stands for the error result (syntax, or a value outside the platform `int`). -/
def Atoi (intSize : Nat) (s : String) : Option Int :=
  let signed : Bool × List Char :=
    match s.data with
    | '-' :: r => (true, r)
    | '+' :: r => (false, r)
    | r => (false, r)
  match digitsValue signed.2 0 with
  | none => none
  | some n =>
    let v : Int := if signed.1 then -(n : Int) else (n : Int)
    if -(2 ^ (intSize - 1) : Int) ≤ v ∧ v ≤ 2 ^ (intSize - 1) - 1 then some v else none

end strconv

namespace net

/-- Index of the first occurrence of a character. -/
def indexByte (c : Char) : List Char → Option Nat
  | [] => none
  | x :: xs => if x = c then some 0 else (indexByte c xs).map (· + 1)

/-- Index of the last occurrence of a character. -/
def lastIndexByte (c : Char) : List Char → Option Nat
  | [] => none
  | x :: xs =>
    match lastIndexByte c xs with
    | some i => some (i + 1)
    | none => if x = c then some 0 else none

/-- The function `net.SplitHostPort` on a character list: host and port, or
`none` for each of its error results. -/
def splitHostPortChars (hostport : List Char) : Option (List Char × List Char) :=
  match lastIndexByte ':' hostport with
  | none => none
  | some i =>
    let bracketed : Option (List Char × Nat × Nat) :=
      if hostport.head? = some '[' then
        match indexByte ']' hostport with
        | none => none
        | some e =>
          if e + 1 = hostport.length then none
          else if e + 1 = i then some ((hostport.take e).drop 1, 1, e + 1)
          else none
      else
        let host := hostport.take i
        if (indexByte ':' host).isSome then none else some (host, 0, 0)
    match bracketed with
    | none => none
    | some (host, j, k) =>
      if (indexByte '[' (hostport.drop j)).isSome then none
      else if (indexByte ']' (hostport.drop k)).isSome then none
      else some (host, hostport.drop (i + 1))

/-- The function `net.SplitHostPort`. -/
def SplitHostPort (hostport : String) : Option (String × String) :=
  (splitHostPortChars hostport.data).map (fun p => (String.mk p.1, String.mk p.2))

/-- The dotted-decimal scan of `parseIPv4Fields`: `fields` are the octets
completed so far, `val` and `digLen` describe the octet being read. -/
def parseIPv4Fields : List Char → List Nat → Nat → Nat → Option (List Nat)
  | [], fields, val, digLen =>
    if digLen = 0 ∨ fields.length ≠ 3 then none else some (fields ++ [val])
  | c :: rest, fields, val, digLen =>
    if '0' ≤ c ∧ c ≤ '9' then
      if digLen = 1 ∧ val = 0 then none
      else
        let v := val * 10 + (c.toNat - 48)
        if v > 255 then none else parseIPv4Fields rest fields v (digLen + 1)
    else if c = '.' then
      if digLen = 0 ∨ rest = [] ∨ fields.length = 3 then none
      else parseIPv4Fields rest (fields ++ [val]) 0 0
    else none

/-- Value of a hexadecimal digit. -/
def hexVal (c : Char) : Option Nat :=
  if '0' ≤ c ∧ c ≤ '9' then some (c.toNat - 48)
  else if 'a' ≤ c ∧ c ≤ 'f' then some (c.toNat - 87)
  else if 'A' ≤ c ∧ c ≤ 'F' then some (c.toNat - 55)
  else none

/-- The leading run of hexadecimal digits: its value, its length and the rest
of the input. -/
def hexRun : List Char → Nat → Nat → Nat × Nat × List Char
  | [], acc, off => (acc, off, [])
  | c :: rest, acc, off =>
    match hexVal c with
    | some d => hexRun rest (acc * 16 + d) (off + 1)
    | none => (acc, off, c :: rest)

/-- The group loop of `parseIPv6`: `ip` holds the bytes written so far and
`ellipsis` the byte position of `::` when one was seen.  The result is the
unread input, the bytes and the ellipsis position; `none` is a parse error.
Every round reads at least one character, so `fuel` never runs out when it
starts above the input length. -/
def parseIPv6Loop : Nat → List Char → List Nat → Option Nat →
    Option (List Char × List Nat × Option Nat)
  | 0, _, _, _ => none
  | fuel + 1, s, ip, ellipsis =>
    if ¬ ip.length < 16 then some (s, ip, ellipsis)
    else
      match hexRun s 0 0 with
      | (acc, off, rest) =>
        if off > 4 then none
        else if off = 0 then none
        else if rest.head? = some '.' then
          if ellipsis.isNone ∧ ip.length ≠ 12 then none
          else if ip.length + 4 > 16 then none
          else
            match parseIPv4Fields s [] 0 0 with
            | none => none
            | some v4 => some ([], ip ++ v4, ellipsis)
        else
          let ip2 := ip ++ [acc / 256, acc % 256]
          match rest with
          | [] => some ([], ip2, ellipsis)
          | c :: rest1 =>
            if c ≠ ':' then none
            else
              match rest1 with
              | [] => none
              | c1 :: rest2 =>
                if c1 = ':' then
                  if ellipsis.isSome then none
                  else
                    match rest2 with
                    | [] => some ([], ip2, some ip2.length)
                    | _ => parseIPv6Loop fuel rest2 ip2 (some ip2.length)
                else parseIPv6Loop fuel rest1 ip2 ellipsis

/-- The function `parseIPv6` for an input without a zone: the 16 bytes of the
address, or `none`. -/
def parseIPv6 (s : List Char) : Option (List Nat) :=
  let start : List Char × Option Nat :=
    match s with
    | ':' :: ':' :: r => (r, some 0)
    | _ => (s, none)
  if start.2.isSome ∧ start.1 = [] then some (List.replicate 16 0)
  else
    match parseIPv6Loop (start.1.length + 1) start.1 [] start.2 with
    | none => none
    | some (rest, ip, ellipsis) =>
      if rest ≠ [] then none
      else if ip.length < 16 then
        match ellipsis with
        | none => none
        | some e => some (ip.take e ++ List.replicate (16 - ip.length) 0 ++ ip.drop e)
      else if ellipsis.isSome then none
      else some ip

/-- The dispatch of `netip.ParseAddr` as `net.ParseIP` uses it: the first of
`.`, `:` and `%` decides between the dotted-decimal form (returned in its
16-byte form) and the IPv6 form; an address with a zone is refused. -/
def parseAddr : List Char → List Char → Option (List Nat)
  | _, [] => none
  | whole, c :: rest =>
    if c = '.' then
      (parseIPv4Fields whole [] 0 0).map
        (fun v4 => List.replicate 10 0 ++ [255, 255] ++ v4)
    else if c = ':' then
      if (indexByte '%' whole).isSome then none else parseIPv6 whole
    else if c = '%' then none
    else parseAddr whole rest

/-- The function `net.ParseIP`: the 16-byte address, or the nil address when
the text is not an IP address. -/
def ParseIP (s : String) : IP := (parseAddr s.data s.data).getD []

/-- The function `net.IPv4`: the 16-byte form of the address `a.b.c.d`. -/
def IPv4 (a b c d : Nat) : IP := [0, 0, 0, 0, 0, 0, 0, 0, 0, 0, 255, 255, a, b, c, d]

end net

namespace url

/-- The UTF-8 bytes of a character. -/
def utf8Bytes (c : Char) : List Nat :=
  let n := c.toNat
  if n < 128 then [n]
  else if n < 2048 then [192 + n / 64, 128 + n % 64]
  else if n < 65536 then [224 + n / 4096, 128 + n / 64 % 64, 128 + n % 64]
  else [240 + n / 262144, 128 + n / 4096 % 64, 128 + n / 64 % 64, 128 + n % 64]

/-- The bytes of a Go string. -/
def bytesOf (s : String) : List Nat := s.data.flatMap utf8Bytes

/-- The function `shouldEscape` in the mode `encodePath`: letters, digits and
the listed marks and reserved characters pass, the question mark and every
other byte are escaped. -/
def shouldEscape (b : Nat) : Bool :=
  if (97 ≤ b ∧ b ≤ 122) ∨ (65 ≤ b ∧ b ≤ 90) ∨ (48 ≤ b ∧ b ≤ 57) then false
  else if b ∈ [ '-', '_', '.', '~'].map Char.toNat then false
  else if b ∈ [ '$', '&', '+', ',', '/', ':', ';', '=', '?', '@'].map Char.toNat then
    b = '?'.toNat
  else true

/-- An upper-case hexadecimal digit. -/
def upperhex (n : Nat) : Char :=
  if n < 10 then Char.ofNat (48 + n) else Char.ofNat (55 + n)

/-- The function `escape` in the mode `encodePath`. -/
def escape (s : String) : String :=
  String.mk ((bytesOf s).flatMap (fun b =>
    if shouldEscape b then [ '%', upperhex (b / 16), upperhex (b % 16)] else [Char.ofNat b]))

/-- The function `validEncoded` in the mode `encodePath`. -/
def validEncoded (s : String) : Bool :=
  (bytesOf s).all (fun b =>
    if b ∈ [ '!', '$', '&', '(', ')', '*', '+', ',', ';', '=', ':', '@', '[', ']', '%'].map Char.toNat
      ∨ b = 39 then true
    else !shouldEscape b)

/-- Value of a hexadecimal digit byte. -/
def unhex (b : Nat) : Option Nat :=
  if 48 ≤ b ∧ b ≤ 57 then some (b - 48)
  else if 97 ≤ b ∧ b ≤ 102 then some (b - 87)
  else if 65 ≤ b ∧ b ≤ 70 then some (b - 55)
  else none

/-- The function `unescape` in the mode `encodePath` on bytes: every `%XX` is
decoded, and `none` is the error for a `%` without two hexadecimal digits. -/
def unescape : List Nat → Option (List Nat)
  | [] => some []
  | 37 :: h1 :: h2 :: rest =>
    match unhex h1, unhex h2, unescape rest with
    | some a, some b, some tl => some ((a * 16 + b) :: tl)
    | _, _, _ => none
  | b :: rest =>
    if b = 37 then none
    else (unescape rest).map (fun tl => b :: tl)

/-- The method `URL.EscapedPath`: `RawPath` when it is a valid encoding of
`Path`, otherwise the escaped form of `Path`. -/
def URL.EscapedPath (u : URL) : String :=
  if u.RawPath ≠ "" ∧ validEncoded u.RawPath = true
      ∧ unescape (bytesOf u.RawPath) = some (bytesOf u.Path) then u.RawPath
  else if u.Path = "*" then "*"
  else escape u.Path

end url

/-! ## The converter (`request.go`) -/

namespace httpadaptor

/-- The constant `maxInt`, `int(^uint(0) >> 1)`: the largest platform `int`. -/
def maxInt (intSize : Nat) : Int := (((2 ^ intSize - 1) / 2 : Nat) : Int)

/-- The conversion `int(n)` of a 64-bit value: the value modulo `2 ^ intSize`,
read as a signed number. -/
def toInt (intSize : Nat) (n : Int) : Int :=
  let r := n % (2 ^ intSize : Int)
  if 2 * r < (2 ^ intSize : Int) then r else r - (2 ^ intSize : Int)

/-- The only error of the package, `errInvalidRequest`. -/
inductive Error where
  | errInvalidRequest
deriving DecidableEq, Repr

/-- The function `copyHeaders`. -/
def copyHeaders (dst : fasthttp.RequestHeader) (src : http.Header)
    (skipContentLength : Bool) : fasthttp.RequestHeader :=
  if src.length = 0 then dst
  else
    src.foldl (fun d (nv : String × List String) =>
      if nv.2.length = 0 then d
      else if nv.1 = "Host" ∨ (skipContentLength = true ∧ nv.1 = "Content-Length") then d
      else nv.2.foldl (fun d2 value => d2.Add nv.1 value) d) dst

/-- The function `bodySizeFromLength`. -/
def bodySizeFromLength (intSize : Nat) (n : Int) : Int :=
  if n < 0 ∨ n > maxInt intSize then -1 else toInt intSize n

/-- The function `isChunked`. -/
def isChunked (encodings : List String) : Bool :=
  if encodings.length = 0 then false
  else
    match encodings.getLast? with
    | some e => strings.EqualFold e "chunked"
    | none => false

/-- The function `populateURIFromRequest`; the result is the new state of the
destination URI. -/
def populateURIFromRequest (dst : Option fasthttp.URI) (src : Option url.URL) :
    Option fasthttp.URI :=
  match dst, src with
  | some dst, some src =>
    let dst := if src.Scheme ≠ "" then dst.SetScheme src.Scheme else dst
    let dst := if src.Host ≠ "" then dst.SetHost src.Host else dst
    let dst :=
      match src.User with
      | some user =>
        let dst :=
          if user.Username ≠ "" then dst.SetUsername user.Username else dst.SetUsername ""
        if user.Password.2 = true then dst.SetPassword user.Password.1
        else dst.SetPassword ""
      | none => (dst.SetUsername "").SetPassword ""
    let dst := if src.Fragment ≠ "" then dst.SetHash src.Fragment else dst.SetHash ""
    if src.Opaque ≠ "" then some ((dst.SetPath src.Opaque).SetQueryString "")
    else
      let path := src.EscapedPath
      let path := if path = "" then "/" else path
      some ((dst.SetPath path).SetQueryString src.RawQuery)
  | d, _ => d

/-- The function `remoteAddrFromRequest`. -/
def remoteAddrFromRequest (intSize : Nat) (r : Option http.Request) : net.TCPAddr :=
  match r with
  | none => net.TCPAddr.zero
  | some r =>
    if r.RemoteAddr = "" then net.TCPAddr.zero
    else
      match net.SplitHostPort r.RemoteAddr with
      | none =>
        let ip := net.ParseIP r.RemoteAddr
        if ip = [] then net.TCPAddr.zero else { IP := ip, Port := 0, Zone := "" }
      | some (host, portStr) =>
        let ip := net.ParseIP host
        let port : Int :=
          match strconv.Atoi intSize portStr with
          | some p => p
          | none => 0
        { IP := ip, Port := port, Zone := "" }

/-- The function `ConvertRequest`.  The result is the returned error (`none`
for nil) and the state of the destination after the call. -/
def ConvertRequest (intSize : Nat) (src : Option http.Request)
    (dst : Option fasthttp.RequestCtx) (forServer : Bool) :
    Option Error × Option fasthttp.RequestCtx :=
  match src, dst with
  | some src, some dst =>
    let req := dst.Request.Reset
    let req := { req with Header := req.Header.DisableNormalizing }
    let req :=
      if forServer = true ∧ src.RequestURI ≠ "" then req.SetRequestURI src.RequestURI
      else if src.URL.isSome = true then
        match populateURIFromRequest (some req.URI) src.URL with
        | some u => { req with uri := u }
        | none => req
      else if src.RequestURI ≠ "" then req.SetRequestURI src.RequestURI
      else req
    let method := if src.Method = "" then http.MethodGet else src.Method
    let req := { req with Header := req.Header.SetMethod method }
    let proto := if src.Proto = "" then "HTTP/1.1" else src.Proto
    let req := { req with Header := req.Header.SetProtocol proto }
    let host :=
      if src.Host = "" ∧ src.URL.isSome = true then
        match src.URL with
        | some u => u.Host
        | none => src.Host
      else src.Host
    let req := if host ≠ "" then req.SetHost host else req
    let req :=
      if src.Close = true then { req with Header := req.Header.SetConnectionClose }
      else { req with Header := req.Header.ResetConnectionClose }
    let hasBody : Bool := decide (src.Body ≠ io.ReadCloser.nil ∧ src.Body ≠ http.NoBody)
    let bodySize := bodySizeFromLength intSize src.ContentLength
    let req := if hasBody = true then req.SetBodyStream src.Body bodySize else req.SetBody []
    let chunked := isChunked src.TransferEncoding
    let policy : fasthttp.RequestHeader × Bool :=
      if chunked = true then
        let hd := req.Header.SetContentLength (-1)
        (if src.TransferEncoding.length > 0 then hd.Del fasthttp.HeaderTransferEncoding else hd,
          true)
      else if bodySize ≥ 0 then (req.Header.SetContentLength bodySize, true)
      else if hasBody = true then (req.Header.SetContentLength (-1), true)
      else (req.Header, false)
    let req := { req with Header := copyHeaders policy.1 src.Header policy.2 }
    (none, some ({ dst with Request := req }.SetRemoteAddr
      (remoteAddrFromRequest intSize (some src))))
  | _, dst => (some Error.errInvalidRequest, dst)

end httpadaptor

/-! ## Auxiliary definitions for the proofs -/

namespace httpadaptor

/-- The entries that `copyHeaders` appends for a source map: every value of
every name that is not skipped, in order. -/
def copiedHeaders (src : http.Header) (skip : Bool) : List (String × String) :=
  src.flatMap (fun nv =>
    if nv.1 = "Host" ∨ (skip = true ∧ nv.1 = "Content-Length") then []
    else nv.2.map (fun v => (nv.1, v)))

/-- Request-line step of `ConvertRequest` (the first `switch`). -/
def stepTarget (src : http.Request) (forServer : Bool) (req : fasthttp.Request) :
    fasthttp.Request :=
  if forServer = true ∧ src.RequestURI ≠ "" then req.SetRequestURI src.RequestURI
  else if src.URL.isSome = true then
    match populateURIFromRequest (some req.URI) src.URL with
    | some u => { req with uri := u }
    | none => req
  else if src.RequestURI ≠ "" then req.SetRequestURI src.RequestURI
  else req

/-- Method and protocol step of `ConvertRequest`. -/
def stepLine (src : http.Request) (req : fasthttp.Request) : fasthttp.Request :=
  let method := if src.Method = "" then http.MethodGet else src.Method
  let req := { req with Header := req.Header.SetMethod method }
  let proto := if src.Proto = "" then "HTTP/1.1" else src.Proto
  { req with Header := req.Header.SetProtocol proto }

/-- Host step of `ConvertRequest`. -/
def stepHost (src : http.Request) (req : fasthttp.Request) : fasthttp.Request :=
  let host :=
    if src.Host = "" ∧ src.URL.isSome = true then
      match src.URL with
      | some u => u.Host
      | none => src.Host
    else src.Host
  if host ≠ "" then req.SetHost host else req

/-- Connection-close step of `ConvertRequest`. -/
def stepClose (src : http.Request) (req : fasthttp.Request) : fasthttp.Request :=
  if src.Close = true then { req with Header := req.Header.SetConnectionClose }
  else { req with Header := req.Header.ResetConnectionClose }

/-- Body step of `ConvertRequest`. -/
def stepBody (intSize : Nat) (src : http.Request) (req : fasthttp.Request) : fasthttp.Request :=
  let hasBody : Bool := decide (src.Body ≠ io.ReadCloser.nil ∧ src.Body ≠ http.NoBody)
  let bodySize := bodySizeFromLength intSize src.ContentLength
  if hasBody = true then req.SetBodyStream src.Body bodySize else req.SetBody []

/-- Length policy and header copy of `ConvertRequest` (the second `switch` and
the call of `copyHeaders`). -/
def stepHeaders (intSize : Nat) (src : http.Request) (req : fasthttp.Request) :
    fasthttp.Request :=
  let hasBody : Bool := decide (src.Body ≠ io.ReadCloser.nil ∧ src.Body ≠ http.NoBody)
  let bodySize := bodySizeFromLength intSize src.ContentLength
  let chunked := isChunked src.TransferEncoding
  let policy : fasthttp.RequestHeader × Bool :=
    if chunked = true then
      let hd := req.Header.SetContentLength (-1)
      (if src.TransferEncoding.length > 0 then hd.Del fasthttp.HeaderTransferEncoding else hd,
        true)
    else if bodySize ≥ 0 then (req.Header.SetContentLength bodySize, true)
    else if hasBody = true then (req.Header.SetContentLength (-1), true)
    else (req.Header, false)
  { req with Header := copyHeaders policy.1 src.Header policy.2 }

/-- The destination after a call of `ConvertRequest` on a source and a
destination that are both present. -/
def convOut (intSize : Nat) (src : http.Request) (dst : fasthttp.RequestCtx)
    (forServer : Bool) : fasthttp.RequestCtx :=
  ((ConvertRequest intSize (some src) (some dst) forServer).2).getD dst

/-- The flag `skipContentLengthHeader` that `ConvertRequest` hands to
`copyHeaders`. -/
def skipFlag (intSize : Nat) (src : http.Request) : Bool :=
  decide (isChunked src.TransferEncoding = true
    ∨ bodySizeFromLength intSize src.ContentLength ≥ 0
    ∨ (src.Body ≠ io.ReadCloser.nil ∧ src.Body ≠ http.NoBody))

/-- The host that the host step of `ConvertRequest` resolves: the source host,
or the URL host when the source host is empty and a URL is present. -/
def resolvedHost (src : http.Request) : String :=
  if src.Host = "" ∧ src.URL.isSome = true then
    match src.URL with
    | some u => u.Host
    | none => src.Host
  else src.Host

/-- The URI that the request-line step of `ConvertRequest` leaves on a reset
destination. -/
def baseURI (src : http.Request) (forServer : Bool) : fasthttp.URI :=
  if forServer = true ∧ src.RequestURI ≠ "" then fasthttp.URI.reset
  else
    match src.URL with
    | some u =>
      (populateURIFromRequest (some fasthttp.URI.reset) (some u)).getD fasthttp.URI.reset
    | none => fasthttp.URI.reset

/-- The zero value `fasthttp.RequestCtx{}` that the test converts into. -/
def emptyCtx : fasthttp.RequestCtx :=
  { Request :=
      { Header := fasthttp.RequestHeader.reset, uri := fasthttp.URI.reset,
        body := fasthttp.Body.unset },
    remoteAddr := none }

/-- The URL of the source that `TestConvertRequest` builds, with the scheme
left open. -/
def testURL (scheme : String) : url.URL :=
  { Scheme := scheme, Opaque := "", User := none, Host := "example.com", Path := "/test",
    RawPath := "", RawQuery := "", Fragment := "" }

/-- The source that `TestConvertRequest` builds, with the URL scheme left
open; the test uses `http`. -/
def testSource (scheme : String) : http.Request :=
  { Method := "GET", URL := some (testURL scheme), Proto := "",
    Header := [("X", ["test"]), ("Y", ["test"])], Body := io.ReadCloser.nil,
    ContentLength := 0, TransferEncoding := [], Close := false, Host := "example.com",
    RemoteAddr := "", RequestURI := "/test" }

/-- A source whose header map holds `Content-Length` under the key
`content-length`, with the given body, declared length and transfer
encodings. -/
def lengthSource (body : io.ReadCloser) (length : Int) (te : List String) : http.Request :=
  { testSource "http" with
    Header := [("content-length", ["9"])], Body := body, ContentLength := length,
    TransferEncoding := te }

/-- A source whose header map holds one host entry under the given key. -/
def hostSource (key : String) : http.Request :=
  { testSource "http" with Header := [(key, ["a"]), ("X", ["test"])] }

/-- A source without body or transfer encoding whose header map has the keys
`Content-Length` and `X`. -/
def canonicalSource : http.Request :=
  { testSource "http" with Header := [("Content-Length", ["99"]), ("X", ["test"])] }

/-- A source with the given remote address. -/
def remoteSource (addr : String) : http.Request :=
  { testSource "http" with RemoteAddr := addr }

/-- A URL with userinfo. -/
def userURL (user : url.Userinfo) : url.URL :=
  { testURL "http" with User := some user }

/-- A destination URI that still holds a password from an earlier use. -/
def staleURI : fasthttp.URI := { fasthttp.URI.reset with password := "stale" }

/-- An opaque URL that also carries a path and a query. -/
def mailtoURL : url.URL :=
  { testURL "" with Opaque := "mailto:a@b.com", Path := "/ignored", RawQuery := "x=1" }

/-- A hierarchical URL whose path needs escaping and whose query is already
encoded. -/
def spaceURL : url.URL :=
  { testURL "http" with Path := "/a b", RawQuery := "q=%41+b" }

end httpadaptor

/-! ## Auxiliary lemmas -/

namespace httpadaptor

theorem foldl_Add (k : String) (vs : List String) (d : fasthttp.RequestHeader) :
    vs.foldl (fun d2 value => d2.Add k value) d
      = { d with h := d.h ++ vs.map (fun v => (k, v)) } := by
  induction vs generalizing d with
  | nil => simp
  | cons v vs ih =>
    rw [List.map_cons, List.foldl_cons, ih]
    simp [fasthttp.RequestHeader.Add]

theorem foldl_copy (src : http.Header) (skip : Bool) (d : fasthttp.RequestHeader) :
    src.foldl (fun d (nv : String × List String) =>
      if nv.2.length = 0 then d
      else if nv.1 = "Host" ∨ (skip = true ∧ nv.1 = "Content-Length") then d
      else nv.2.foldl (fun d2 value => d2.Add nv.1 value) d) d
      = { d with h := d.h ++ copiedHeaders src skip } := by
  induction src generalizing d with
  | nil => simp [copiedHeaders]
  | cons nv rest ih =>
    rw [List.foldl_cons, ih]
    by_cases h0 : nv.2.length = 0
    · have : nv.2 = [] := List.length_eq_zero.mp h0
      simp [copiedHeaders, this]
    · by_cases hs : nv.1 = "Host" ∨ (skip = true ∧ nv.1 = "Content-Length")
      · simp only [h0, hs, if_true, if_false]
        simp [copiedHeaders, hs]
      · simp only [h0, hs, if_false]
        rw [foldl_Add]
        simp [copiedHeaders, hs]

/-- The function `copyHeaders` changes nothing but the header list, to which it
appends the copied entries. -/
theorem copyHeaders_eq (d : fasthttp.RequestHeader) (src : http.Header) (skip : Bool) :
    copyHeaders d src skip = { d with h := d.h ++ copiedHeaders src skip } := by
  unfold copyHeaders
  split
  · rename_i h0
    have : src = [] := List.length_eq_zero.mp h0
    simp [this, copiedHeaders]
  · exact foldl_copy src skip d

theorem mem_copiedHeaders (src : http.Header) (skip : Bool) (k v : String) :
    (k, v) ∈ copiedHeaders src skip ↔
      ∃ vs, (k, vs) ∈ src ∧ v ∈ vs ∧ ¬ (k = "Host" ∨ (skip = true ∧ k = "Content-Length")) := by
  unfold copiedHeaders
  rw [List.mem_flatMap]
  constructor
  · rintro ⟨⟨k2, vs⟩, hmem, hin⟩
    by_cases hs : k2 = "Host" ∨ (skip = true ∧ k2 = "Content-Length")
    · simp [hs] at hin
    · simp only [hs, if_false, List.mem_map, Prod.mk.injEq] at hin
      obtain ⟨v2, hv2, hk, hv⟩ := hin
      subst hk; subst hv
      exact ⟨vs, hmem, hv2, hs⟩
  · rintro ⟨vs, hmem, hv, hs⟩
    refine ⟨(k, vs), hmem, ?_⟩
    simp only [hs, if_false, List.mem_map]
    exact ⟨v, hv, rfl⟩

theorem values_of_not_mem (src : http.Header) (name : String)
    (h : name ∉ src.map Prod.fst) : http.Header.values src name = [] := by
  induction src with
  | nil => rfl
  | cons nv rest ih =>
    obtain ⟨k, vs⟩ := nv
    simp only [List.map_cons, List.mem_cons, not_or] at h
    have hk : ¬ k = name := fun e => h.1 e.symm
    simp only [http.Header.values, hk, if_false]
    exact ih h.2

theorem values_of_mem (src : http.Header) (name : String) (vs : List String)
    (hwf : http.Header.WF src) (h : (name, vs) ∈ src) : http.Header.values src name = vs := by
  induction src with
  | nil => simp at h
  | cons nv rest ih =>
    obtain ⟨k, ws⟩ := nv
    unfold http.Header.WF at hwf
    simp only [List.map_cons, List.nodup_cons] at hwf
    rcases List.mem_cons.mp h with h1 | h1
    · simp only [Prod.mk.injEq] at h1
      simp [http.Header.values, h1.1, h1.2]
    · have hne : ¬ k = name := by
        intro e
        apply hwf.1
        rw [e]
        exact List.mem_map.mpr ⟨(name, vs), h1, rfl⟩
      simp only [http.Header.values, hne, if_false]
      exact ih hwf.2 h1

theorem filter_copied_of_not_mem (src : http.Header) (skip : Bool) (name : String)
    (h : name ∉ src.map Prod.fst) :
    (copiedHeaders src skip).filter (fun kv => decide (kv.1 = name)) = [] := by
  rw [List.filter_eq_nil_iff]
  rintro ⟨k, v⟩ hmem
  obtain ⟨vs, hin, _, _⟩ := (mem_copiedHeaders src skip k v).mp hmem
  simp only [decide_eq_true_eq]
  intro e
  apply h
  rw [← e]
  exact List.mem_map.mpr ⟨(k, vs), hin, rfl⟩

/-- The copied entries stored under one name: none when the name is skipped,
otherwise the source's values under that name, in order. -/
theorem filter_copiedHeaders (src : http.Header) (skip : Bool) (name : String)
    (hwf : http.Header.WF src) :
    (copiedHeaders src skip).filter (fun kv => decide (kv.1 = name)) =
      if name = "Host" ∨ (skip = true ∧ name = "Content-Length") then []
      else (http.Header.values src name).map (fun v => (name, v)) := by
  induction src with
  | nil => simp [copiedHeaders, http.Header.values]
  | cons nv rest ih =>
    obtain ⟨k, vs⟩ := nv
    unfold http.Header.WF at hwf
    simp only [List.map_cons, List.nodup_cons] at hwf
    have hcons : copiedHeaders ((k, vs) :: rest) skip =
        (if k = "Host" ∨ (skip = true ∧ k = "Content-Length") then []
          else vs.map (fun v => (k, v))) ++ copiedHeaders rest skip := by
      simp [copiedHeaders]
    rw [hcons, List.filter_append]
    by_cases hk : k = name
    · subst hk
      rw [filter_copied_of_not_mem rest skip k hwf.1, List.append_nil]
      by_cases hs : k = "Host" ∨ (skip = true ∧ k = "Content-Length")
      · simp [hs]
      · simp [hs, http.Header.values, List.filter_eq_self]
    · have hfirst : List.filter (fun kv => decide (kv.1 = name))
          (if k = "Host" ∨ (skip = true ∧ k = "Content-Length") then []
            else vs.map (fun v => (k, v))) = [] := by
        rw [List.filter_eq_nil_iff]
        intro kv hkv
        split_ifs at hkv with hs
        · simp at hkv
        · obtain ⟨v, _, rfl⟩ := List.mem_map.mp hkv
          simpa using hk
      rw [hfirst, List.nil_append, ih hwf.2]
      simp [http.Header.values, hk]

theorem ConvertRequest_eq (intSize : Nat) (src : http.Request) (dst : fasthttp.RequestCtx)
    (forServer : Bool) :
    ConvertRequest intSize (some src) (some dst) forServer
      = (none, some (convOut intSize src dst forServer)) := rfl

/-- The function `ConvertRequest` is the composition of its steps. -/
theorem convOut_eq (intSize : Nat) (src : http.Request) (dst : fasthttp.RequestCtx)
    (forServer : Bool) :
    convOut intSize src dst forServer =
      { Request := stepHeaders intSize src (stepBody intSize src (stepClose src (stepHost src
          (stepLine src (stepTarget src forServer
            { dst.Request.Reset with
              Header := dst.Request.Reset.Header.DisableNormalizing }))))),
        remoteAddr := some (remoteAddrFromRequest intSize (some src)) } := rfl

/-- The effect of `populateURIFromRequest` on a destination and a source that
are both present, component by component. -/
theorem populate_eq (d : fasthttp.URI) (u : url.URL) :
    populateURIFromRequest (some d) (some u) = some
      { scheme := if u.Scheme ≠ "" then u.Scheme else d.scheme
        host := if u.Host ≠ "" then u.Host else d.host
        username := match u.User with
          | some user => user.username
          | none => ""
        password := match u.User with
          | some user => if user.passwordSet = true then user.password else ""
          | none => ""
        hash := u.Fragment
        path := if u.Opaque ≠ "" then u.Opaque
          else if u.EscapedPath = "" then "/" else u.EscapedPath
        queryString := if u.Opaque ≠ "" then "" else u.RawQuery } := by
  unfold populateURIFromRequest
  simp only [fasthttp.URI.SetScheme, fasthttp.URI.SetHost, fasthttp.URI.SetUsername,
    fasthttp.URI.SetPassword, fasthttp.URI.SetHash, fasthttp.URI.SetPath,
    fasthttp.URI.SetQueryString, url.Userinfo.Username, url.Userinfo.Password]
  rcases hU : u.User with _ | user <;>
    by_cases h1 : u.Scheme = "" <;> by_cases h2 : u.Host = "" <;>
    by_cases h3 : u.Fragment = "" <;> by_cases h4 : u.Opaque = "" <;>
    simp [h1, h2, h3, h4] <;> split_ifs <;> simp_all

theorem populate_some (d : fasthttp.URI) (u : url.URL) :
    ∃ p, populateURIFromRequest (some d) (some u) = some p :=
  ⟨_, populate_eq d u⟩

theorem stepTarget_Header (src : http.Request) (forServer : Bool) (req : fasthttp.Request) :
    (stepTarget src forServer req).Header =
      if (forServer = true ∧ src.RequestURI ≠ "") ∨ (src.URL = none ∧ src.RequestURI ≠ "") then
        req.Header.SetRequestURI src.RequestURI
      else req.Header := by
  unfold stepTarget
  rcases hU : src.URL with _ | u
  · by_cases h1 : forServer = true ∧ src.RequestURI ≠ ""
    · simp [h1, fasthttp.Request.SetRequestURI]
    · by_cases h2 : src.RequestURI ≠ ""
      · simp [h1, h2, fasthttp.Request.SetRequestURI]
      · simp [h1, h2]
  · obtain ⟨p, hp⟩ := populate_some req.URI u
    by_cases h1 : forServer = true ∧ src.RequestURI ≠ ""
    · simp [h1, fasthttp.Request.SetRequestURI]
    · simp [h1, hp]

theorem stepTarget_body (src : http.Request) (forServer : Bool) (req : fasthttp.Request) :
    (stepTarget src forServer req).body = req.body := by
  unfold stepTarget
  rcases hU : src.URL with _ | u
  · simp only [fasthttp.Request.SetRequestURI]
    split_ifs <;> simp_all
  · obtain ⟨p, hp⟩ := populate_some req.URI u
    simp only [fasthttp.Request.SetRequestURI, hp]
    split_ifs <;> rfl

theorem stepTarget_uri (src : http.Request) (forServer : Bool) (req : fasthttp.Request) :
    (stepTarget src forServer req).uri =
      if forServer = true ∧ src.RequestURI ≠ "" then req.uri
      else
        match src.URL with
        | some u => (populateURIFromRequest (some req.uri) (some u)).getD req.uri
        | none => req.uri := by
  unfold stepTarget
  rcases hU : src.URL with _ | u
  · simp only [fasthttp.Request.SetRequestURI]
    split_ifs <;> simp_all
  · obtain ⟨p, hp⟩ := populate_some req.URI u
    have hp2 : populateURIFromRequest (some req.uri) (some u) = some p := hp
    simp only [fasthttp.Request.SetRequestURI, hp, hp2]
    split_ifs <;> simp_all

theorem stepLine_Header (src : http.Request) (req : fasthttp.Request) :
    (stepLine src req).Header =
      { req.Header with
        method := if src.Method = "" then "GET" else src.Method
        proto := if src.Proto = "" then "HTTP/1.1" else src.Proto } := rfl

theorem stepHost_Header (src : http.Request) (req : fasthttp.Request) :
    (stepHost src req).Header = req.Header := by
  simp only [stepHost, fasthttp.Request.SetHost, apply_ite fasthttp.Request.Header, ite_self]

theorem stepClose_Header (src : http.Request) (req : fasthttp.Request) :
    (stepClose src req).Header = { req.Header with connectionClose := src.Close } := by
  unfold stepClose
  cases src.Close <;> rfl

theorem stepBody_Header (intSize : Nat) (src : http.Request) (req : fasthttp.Request) :
    (stepBody intSize src req).Header = req.Header := by
  simp only [stepBody, fasthttp.Request.SetBody, fasthttp.Request.SetBodyStream,
    apply_ite fasthttp.Request.Header, ite_self]

theorem stepHeaders_Header (intSize : Nat) (src : http.Request) (req : fasthttp.Request) :
    (stepHeaders intSize src req).Header =
      { req.Header with
        contentLength :=
          if isChunked src.TransferEncoding = true then some (-1)
          else if bodySizeFromLength intSize src.ContentLength ≥ 0 then
            some (bodySizeFromLength intSize src.ContentLength)
          else if src.Body ≠ io.ReadCloser.nil ∧ src.Body ≠ http.NoBody then some (-1)
          else req.Header.contentLength
        h := (if isChunked src.TransferEncoding = true ∧ src.TransferEncoding.length > 0 then
                req.Header.h.filter (fun kv => decide (kv.1 ≠ fasthttp.HeaderTransferEncoding))
              else req.Header.h)
          ++ copiedHeaders src.Header (skipFlag intSize src) } := by
  unfold stepHeaders skipFlag
  simp only [copyHeaders_eq, decide_eq_true_eq]
  by_cases hc : isChunked src.TransferEncoding = true
  · by_cases hl : src.TransferEncoding.length > 0
    · simp [hc, hl, fasthttp.RequestHeader.SetContentLength, fasthttp.RequestHeader.Del]
    · simp [hc, hl, fasthttp.RequestHeader.SetContentLength]
  · by_cases hb : bodySizeFromLength intSize src.ContentLength ≥ 0
    · simp [hc, hb, fasthttp.RequestHeader.SetContentLength]
    · by_cases hB : src.Body ≠ io.ReadCloser.nil ∧ src.Body ≠ http.NoBody
      · simp [hc, hb, hB, fasthttp.RequestHeader.SetContentLength]
      · simp [hc, hb, hB]

/-- The header store of the destination after `ConvertRequest`. -/
theorem convOut_Header (intSize : Nat) (src : http.Request) (dst : fasthttp.RequestCtx)
    (forServer : Bool) :
    (convOut intSize src dst forServer).Request.Header =
      { disableNormalizing := true
        method := if src.Method = "" then "GET" else src.Method
        proto := if src.Proto = "" then "HTTP/1.1" else src.Proto
        requestURI :=
          if (forServer = true ∧ src.RequestURI ≠ "") ∨ (src.URL = none ∧ src.RequestURI ≠ "")
          then src.RequestURI else ""
        connectionClose := src.Close
        contentLength :=
          if isChunked src.TransferEncoding = true then some (-1)
          else if bodySizeFromLength intSize src.ContentLength ≥ 0 then
            some (bodySizeFromLength intSize src.ContentLength)
          else if src.Body ≠ io.ReadCloser.nil ∧ src.Body ≠ http.NoBody then some (-1)
          else none
        h := copiedHeaders src.Header (skipFlag intSize src) } := by
  rw [convOut_eq]
  simp only [stepHeaders_Header, stepBody_Header, stepClose_Header, stepHost_Header,
    stepLine_Header, stepTarget_Header]
  by_cases h1 : (forServer = true ∧ src.RequestURI ≠ "") ∨ (src.URL = none ∧ src.RequestURI ≠ "")
  · simp [h1, fasthttp.Request.Reset, fasthttp.RequestHeader.reset,
      fasthttp.RequestHeader.DisableNormalizing, fasthttp.RequestHeader.SetRequestURI]
  · simp [h1, fasthttp.Request.Reset, fasthttp.RequestHeader.reset,
      fasthttp.RequestHeader.DisableNormalizing]

/-- The headers on the destination after `ConvertRequest` are the values of
the source header map under the keys that `copyHeaders` does not skip. -/
theorem mem_convOut_h (intSize : Nat) (src : http.Request) (dst : fasthttp.RequestCtx)
    (forServer : Bool) (k v : String) :
    (k, v) ∈ (convOut intSize src dst forServer).Request.Header.h ↔
      ∃ vs, (k, vs) ∈ src.Header ∧ v ∈ vs
        ∧ ¬ (k = "Host" ∨ (skipFlag intSize src = true ∧ k = "Content-Length")) := by
  rw [convOut_Header]
  exact mem_copiedHeaders src.Header (skipFlag intSize src) k v

/-- The URI of the destination after `ConvertRequest`: the URI of the
request-line step, with the resolved host stored when it is non-empty. -/
theorem convOut_uri (intSize : Nat) (src : http.Request) (dst : fasthttp.RequestCtx)
    (forServer : Bool) :
    (convOut intSize src dst forServer).Request.uri =
      { baseURI src forServer with
        host := if resolvedHost src ≠ "" then resolvedHost src
          else (baseURI src forServer).host } := by
  rw [convOut_eq]
  simp only [stepHeaders, stepBody, stepClose, stepHost, stepLine,
    apply_ite fasthttp.Request.uri, fasthttp.Request.SetBody, fasthttp.Request.SetBodyStream,
    fasthttp.Request.SetHost, ite_self, stepTarget_uri, fasthttp.Request.Reset]
  show (if resolvedHost src ≠ "" then (baseURI src forServer).SetHost (resolvedHost src)
    else baseURI src forServer) = _
  split_ifs <;> rfl

theorem baseURI_server (src : http.Request) (h : src.RequestURI ≠ "") :
    baseURI src true = fasthttp.URI.reset := by
  simp [baseURI, h]

theorem baseURI_none (src : http.Request) (forServer : Bool) (h : src.URL = none) :
    baseURI src forServer = fasthttp.URI.reset := by
  simp [baseURI, h]

theorem baseURI_url (src : http.Request) (forServer : Bool) (u : url.URL)
    (hna : ¬ (forServer = true ∧ src.RequestURI ≠ "")) (h : src.URL = some u) (p : fasthttp.URI)
    (hp : populateURIFromRequest (some fasthttp.URI.reset) (some u) = some p) :
    baseURI src forServer = p := by
  simp only [baseURI, hna, h, if_false, hp, Option.getD_some]

theorem baseURI_scheme (src : http.Request) (forServer : Bool) :
    (baseURI src forServer).scheme =
      if forServer = true ∧ src.RequestURI ≠ "" then ""
      else
        match src.URL with
        | some u => u.Scheme
        | none => "" := by
  unfold baseURI
  rcases hU : src.URL with _ | u
  · split_ifs <;> rfl
  · simp only [populate_eq, Option.getD_some, fasthttp.URI.reset]
    by_cases hs : u.Scheme = "" <;> split_ifs <;> simp_all

theorem baseURI_host (src : http.Request) (forServer : Bool) :
    (baseURI src forServer).host =
      if forServer = true ∧ src.RequestURI ≠ "" then ""
      else
        match src.URL with
        | some u => u.Host
        | none => "" := by
  unfold baseURI
  rcases hU : src.URL with _ | u
  · split_ifs <;> rfl
  · simp only [populate_eq, Option.getD_some, fasthttp.URI.reset]
    by_cases hs : u.Host = "" <;> split_ifs <;> simp_all

theorem convOut_body (intSize : Nat) (src : http.Request) (dst : fasthttp.RequestCtx)
    (forServer : Bool) :
    (convOut intSize src dst forServer).Request.body =
      if src.Body ≠ io.ReadCloser.nil ∧ src.Body ≠ http.NoBody then
        fasthttp.Body.stream src.Body (bodySizeFromLength intSize src.ContentLength)
      else fasthttp.Body.buffered [] := by
  rw [convOut_eq]
  simp only [stepHeaders, stepBody, stepClose, stepHost, stepLine,
    apply_ite fasthttp.Request.body, fasthttp.Request.SetBody, fasthttp.Request.SetBodyStream,
    fasthttp.Request.SetHost, ite_self, stepTarget_body, fasthttp.Request.Reset,
    decide_eq_true_eq]

theorem convOut_remoteAddr (intSize : Nat) (src : http.Request) (dst : fasthttp.RequestCtx)
    (forServer : Bool) :
    (convOut intSize src dst forServer).remoteAddr
      = some (remoteAddrFromRequest intSize (some src)) := rfl

/-- A list is chunked exactly when its last entry folds to `chunked`. -/
theorem isChunked_concat (init : List String) (last : String) :
    isChunked (init ++ [last]) = strings.EqualFold last "chunked" := by
  unfold isChunked
  simp

theorem isChunked_iff (te : List String) :
    isChunked te = true ↔
      ∃ init last, te = init ++ [last] ∧ strings.EqualFold last "chunked" = true := by
  constructor
  · intro h
    rcases List.eq_nil_or_concat te with hnil | ⟨init, last, hte⟩
    · subst hnil
      simp [isChunked] at h
    · rw [List.concat_eq_append] at hte
      refine ⟨init, last, hte, ?_⟩
      rw [hte, isChunked_concat] at h
      exact h
  · rintro ⟨init, last, hte, h⟩
    rw [hte, isChunked_concat]
    exact h

/-- A length in the range `0 .. maxInt` is converted without change. -/
theorem bodySizeFromLength_of_range (intSize : Nat) (n : Int) (h0 : 0 ≤ n)
    (h1 : n ≤ maxInt intSize) : bodySizeFromLength intSize n = n := by
  unfold bodySizeFromLength
  have hnot : ¬ (n < 0 ∨ n > maxInt intSize) := by omega
  rw [if_neg hnot]
  unfold toInt
  unfold maxInt at h1
  have hpos : (0 : Int) < 2 ^ intSize := by positivity
  have hcast : ((2 ^ intSize : Nat) : Int) = (2 : Int) ^ intSize := by push_cast; rfl
  have hlt : 2 * n < (2 : Int) ^ intSize := by
    have : (2 ^ intSize - 1) / 2 * 2 ≤ 2 ^ intSize - 1 := Nat.div_mul_le_self _ _
    have hp : 0 < 2 ^ intSize := Nat.pow_pos (by norm_num)
    omega
  have hmod : n % (2 : Int) ^ intSize = n := Int.emod_eq_of_lt h0 (by omega)
  simp only [hmod, hlt, if_true]

/-- A length outside the range `0 .. maxInt` is reported as unknown. -/
theorem bodySizeFromLength_unknown (intSize : Nat) (n : Int)
    (h : n < 0 ∨ n > maxInt intSize) : bodySizeFromLength intSize n = -1 := by
  unfold bodySizeFromLength
  rw [if_pos h]

theorem bodySizeFromLength_nonneg_iff (intSize : Nat) (n : Int) :
    bodySizeFromLength intSize n ≥ 0 ↔ (0 ≤ n ∧ n ≤ maxInt intSize) := by
  constructor
  · intro h
    by_contra hn
    have hu : n < 0 ∨ n > maxInt intSize := by omega
    rw [bodySizeFromLength_unknown intSize n hu] at h
    omega
  · rintro ⟨h0, h1⟩
    rw [bodySizeFromLength_of_range intSize n h0 h1]
    exact h0

/-- The suppression flag is on exactly when the source is chunked, or its
declared size is known, or it has a body. -/
theorem skipFlag_iff (intSize : Nat) (src : http.Request) :
    skipFlag intSize src = true ↔
      ((∃ init last, src.TransferEncoding = init ++ [last]
          ∧ strings.EqualFold last "chunked" = true)
        ∨ (0 ≤ src.ContentLength ∧ src.ContentLength ≤ maxInt intSize)
        ∨ (src.Body ≠ io.ReadCloser.nil ∧ src.Body ≠ http.NoBody)) := by
  unfold skipFlag
  rw [decide_eq_true_eq, isChunked_iff, bodySizeFromLength_nonneg_iff]

theorem remoteAddr_split (intSize : Nat) (r : http.Request) (host port : String)
    (hne : r.RemoteAddr ≠ "") (hs : net.SplitHostPort r.RemoteAddr = some (host, port)) :
    remoteAddrFromRequest intSize (some r)
      = { IP := net.ParseIP host, Port := (strconv.Atoi intSize port).getD 0, Zone := "" } := by
  unfold remoteAddrFromRequest
  simp only [hne, if_false, hs]
  cases strconv.Atoi intSize port <;> rfl

theorem remoteAddr_nosplit (intSize : Nat) (r : http.Request)
    (hne : r.RemoteAddr ≠ "") (hs : net.SplitHostPort r.RemoteAddr = none) :
    remoteAddrFromRequest intSize (some r)
      = if net.ParseIP r.RemoteAddr = [] then net.TCPAddr.zero
        else { IP := net.ParseIP r.RemoteAddr, Port := 0, Zone := "" } := by
  unfold remoteAddrFromRequest
  simp only [hne, if_false, hs]

end httpadaptor

/-! ## The claims -/

namespace httpadaptor

/-- C1: `ConvertRequest` returns the invalid-input error exactly when the
source or the destination is nil; for every other input it returns no error;
and when it returns the error the destination is left as it was. -/
theorem C1_error_iff_nil (intSize : Nat) (src : Option http.Request)
    (dst : Option fasthttp.RequestCtx) (forServer : Bool) :
    ((ConvertRequest intSize src dst forServer).1 = some Error.errInvalidRequest
        ↔ (src = none ∨ dst = none))
    ∧ ((ConvertRequest intSize src dst forServer).1 = none ↔ (src ≠ none ∧ dst ≠ none))
    ∧ ((ConvertRequest intSize src dst forServer).1 = some Error.errInvalidRequest →
        (ConvertRequest intSize src dst forServer).2 = dst) := by
  rcases src with _ | s <;> rcases dst with _ | d <;>
    simp [ConvertRequest_eq] <;> simp [ConvertRequest]

/-- C2: request-target priority of `ConvertRequest` for a source and a
destination that are present.  (a) In server mode a non-empty `RequestURI` is
the request target verbatim and the URL is not consulted: every URI component
other than the host stays at its reset value.  (b) Otherwise a present URL
populates the URI through `populateURIFromRequest` (the host may afterwards be
replaced by the host step) and `RequestURI` is ignored: the request target
stays at its reset value.  (c) Otherwise a non-empty `RequestURI` is the
request target verbatim.  (d) Otherwise the target stays at its reset state. -/
theorem C2_target_priority (intSize : Nat) (src : http.Request) (dst : fasthttp.RequestCtx)
    (forServer : Bool) :
    ∃ out, ConvertRequest intSize (some src) (some dst) forServer = (none, some out)
      ∧ (forServer = true ∧ src.RequestURI ≠ "" →
          out.Request.Header.requestURI = src.RequestURI
          ∧ out.Request.uri = { fasthttp.URI.reset with host := out.Request.uri.host })
      ∧ (¬ (forServer = true ∧ src.RequestURI ≠ "") → ∀ u, src.URL = some u →
          ∃ p, populateURIFromRequest (some (fasthttp.Request.Reset dst.Request).URI) src.URL
              = some p
            ∧ out.Request.uri = { p with host := out.Request.uri.host }
            ∧ out.Request.Header.requestURI = fasthttp.RequestHeader.reset.requestURI)
      ∧ (¬ (forServer = true ∧ src.RequestURI ≠ "") → src.URL = none → src.RequestURI ≠ "" →
          out.Request.Header.requestURI = src.RequestURI
          ∧ out.Request.uri = { fasthttp.URI.reset with host := out.Request.uri.host })
      ∧ (src.URL = none → src.RequestURI = "" →
          out.Request.Header.requestURI = fasthttp.RequestHeader.reset.requestURI
          ∧ out.Request.uri = { fasthttp.URI.reset with host := out.Request.uri.host }) := by
  refine ⟨convOut intSize src dst forServer, ConvertRequest_eq _ _ _ _, ?_, ?_, ?_, ?_⟩
  · intro ha
    have hf : forServer = true := ha.1
    subst hf
    rw [convOut_Header, convOut_uri, baseURI_server src ha.2]
    refine ⟨?_, rfl⟩
    simp [ha.2]
  · intro hna u hu
    obtain ⟨p, hp⟩ := populate_some (fasthttp.Request.Reset dst.Request).URI u
    refine ⟨p, by rw [hu]; exact hp, ?_, ?_⟩
    · rw [convOut_uri, baseURI_url src forServer u hna hu p hp]
    · rw [convOut_Header]
      simp [hna, hu, fasthttp.RequestHeader.reset]
  · intro hna hu hr
    rw [convOut_Header, convOut_uri, baseURI_none src forServer hu]
    refine ⟨?_, rfl⟩
    simp [hu, hr]
  · intro hu hr
    rw [convOut_Header, convOut_uri, baseURI_none src forServer hu]
    refine ⟨?_, rfl⟩
    simp [hu, hr, fasthttp.RequestHeader.reset]

/-- C3, refuted at a concrete input: the source of `TestConvertRequest` with
the URL scheme `https` instead of `http`.  The conversion succeeds and reports
the method, host, request target and header of the source, but the scheme
component of the destination is still unset: the URL scheme `https` was not
transferred. -/
theorem C3_scheme_counterexample :
    (testURL "https").Scheme = "https"
    ∧ ∃ out, ConvertRequest 64 (some (testSource "https")) (some emptyCtx) true = (none, some out)
      ∧ out.Method = "GET" ∧ out.Host = "example.com" ∧ out.RequestURI = "/test"
      ∧ out.Request.Header.Peek "X" = "test"
      ∧ out.URI.scheme = fasthttp.URI.reset.scheme ∧ out.URI.scheme ≠ "https" :=
  ⟨rfl, convOut 64 (testSource "https") emptyCtx true, ConvertRequest_eq _ _ _ _, by decide⟩

/-- C3, amended: for a source with a non-empty method `M`, host `H`, a URL with
scheme `S`, host `H` and path `P`, a non-empty raw request target `P`, and a
header map with distinct keys that holds `K` with the single value `V` (`K`
other than `Host` and `Content-Length`), `ConvertRequest` in server mode
returns no error and the destination reports method `M`, host `H`, request
target `P` and `V` for the lookup of `K`.  Nothing is stated about the scheme:
with a raw request target the URL, its scheme included, is not consulted. -/
theorem C3_server_conversion (intSize : Nat) (src : http.Request) (u : url.URL)
    (dst : fasthttp.RequestCtx) (M H S P K V : String) (hdr : http.Header)
    (hM : M ≠ "") (hP : P ≠ "") (hwf : http.Header.WF hdr) (hK : (K, [V]) ∈ hdr)
    (hKH : K ≠ "Host") (hKC : K ≠ "Content-Length") :
    ∃ out, ConvertRequest intSize
        (some { src with
          Method := M, Host := H, URL := some { u with Scheme := S, Host := H, Path := P },
          RequestURI := P, Header := hdr })
        (some dst) true = (none, some out)
      ∧ out.Method = M
      ∧ out.Host = H
      ∧ out.RequestURI = P
      ∧ out.Request.Header.Peek K = V := by
  refine ⟨_, ConvertRequest_eq _ _ _ _, ?_, ?_, ?_, ?_⟩
  · unfold fasthttp.RequestCtx.Method
    rw [convOut_Header]
    simp [hM]
  · unfold fasthttp.RequestCtx.Host
    rw [convOut_uri]
    simp only [baseURI_host, resolvedHost]
    by_cases hH : H = "" <;> simp [hP, hH]
  · unfold fasthttp.RequestCtx.RequestURI
    rw [convOut_Header]
    simp [hP]
  · unfold fasthttp.RequestHeader.Peek fasthttp.RequestHeader.PeekAll
    rw [convOut_Header]
    have hs : ¬ (K = "Host" ∨ (skipFlag intSize { src with
          Method := M, Host := H, URL := some { u with Scheme := S, Host := H, Path := P },
          RequestURI := P, Header := hdr } = true ∧ K = "Content-Length")) := by
      rintro (h | h)
      · exact hKH h
      · exact hKC h.2
    simp only [filter_copiedHeaders hdr _ K hwf, if_neg hs, values_of_mem hdr K [V] hwf hK]
    rfl

/-- C3, amended, at the input of `TestConvertRequest`: method `GET`, scheme
`http`, host `example.com`, path and request target `/test`, header `X: test`. -/
theorem C3_server_conversion_witness :
    ∃ out, ConvertRequest 64
        (some { testSource "http" with
          Method := "GET", Host := "example.com",
          URL := some { testURL "http" with
            Scheme := "http", Host := "example.com", Path := "/test" },
          RequestURI := "/test", Header := [("X", ["test"]), ("Y", ["test"])] })
        (some emptyCtx) true = (none, some out)
      ∧ out.Method = "GET"
      ∧ out.Host = "example.com"
      ∧ out.RequestURI = "/test"
      ∧ out.Request.Header.Peek "X" = "test" :=
  C3_server_conversion 64 (testSource "http") (testURL "http") emptyCtx "GET" "example.com"
    "http" "/test" "X" "test" [("X", ["test"]), ("Y", ["test"])]
    (by decide) (by decide) (by decide) (by decide) (by decide) (by decide)

/-- C4: for a source whose transfer-encoding list is `init ++ [last]` with
`last` equal to `chunked` up to letter case, whatever `init` is and whatever
the declared `ContentLength` `N` is, the content length of the destination
after `ConvertRequest` is the unknown sentinel `-1`. -/
theorem C4_chunked_wins (intSize : Nat) (src : http.Request) (dst : fasthttp.RequestCtx)
    (forServer : Bool) (init : List String) (last : String) (N : Int)
    (hlast : strings.EqualFold last "chunked" = true) :
    ∃ out, ConvertRequest intSize
        (some { src with TransferEncoding := init ++ [last], ContentLength := N }) (some dst)
        forServer = (none, some out)
      ∧ out.Request.Header.contentLength = some (-1) := by
  refine ⟨_, ConvertRequest_eq _ _ _ _, ?_⟩
  rw [convOut_Header]
  simp [isChunked_concat, hlast]

/-- C4, at a concrete input: transfer encodings `gzip, Chunked` and a declared
length of 42. -/
theorem C4_chunked_wins_witness :
    strings.EqualFold "Chunked" "chunked" = true
    ∧ ∃ out, ConvertRequest 64
        (some { testSource "http" with
          TransferEncoding := ["gzip"] ++ ["Chunked"], ContentLength := 42 })
        (some emptyCtx) true = (none, some out)
      ∧ out.Request.Header.contentLength = some (-1) :=
  ⟨by decide, C4_chunked_wins 64 (testSource "http") emptyCtx true ["gzip"] "Chunked" 42
    (by decide)⟩

/-- C5, refuted at a concrete input: a chunked source whose header map holds
the key `content-length`.  The key is not the exact spelling `Content-Length`,
so the suppression does not apply and the destination holds a
`Content-Length` header, spelled `content-length`, with the value `9`. -/
theorem C5_content_length_counterexample :
    isChunked (lengthSource (io.ReadCloser.stream 1) 5 ["chunked"]).TransferEncoding = true
    ∧ strings.EqualFold "content-length" "Content-Length" = true
    ∧ ∃ out, ConvertRequest 64 (some (lengthSource (io.ReadCloser.stream 1) 5 ["chunked"]))
        (some emptyCtx) true = (none, some out)
      ∧ ("content-length", "9") ∈ out.Request.Header.h :=
  ⟨by decide, by decide, convOut 64 _ emptyCtx true, ConvertRequest_eq _ _ _ _, by decide⟩

/-- C5, amended: for a source whose transfer-encoding list ends in `chunked`
(up to letter case) and a source header map whose keys equal to
`Content-Length` up to letter case are spelled exactly `Content-Length`, the
header collection of the destination after `ConvertRequest` holds no
`Content-Length` header in any spelling, and every `Transfer-Encoding` header
it holds, in any spelling, is a value that the source header map holds under
that key: `ConvertRequest` leaves none of its own, and `copyHeaders` hands an
incoming one to the destination like any other header. -/
theorem C5_chunked_headers (intSize : Nat) (src : http.Request) (dst : fasthttp.RequestCtx)
    (forServer : Bool) (init : List String) (last : String)
    (hlast : strings.EqualFold last "chunked" = true)
    (hkeys : ∀ kv ∈ src.Header,
      strings.EqualFold kv.1 "Content-Length" = true → kv.1 = "Content-Length") :
    ∃ out, ConvertRequest intSize (some { src with TransferEncoding := init ++ [last] })
        (some dst) forServer = (none, some out)
      ∧ (∀ kv ∈ out.Request.Header.h, strings.EqualFold kv.1 "Content-Length" = false)
      ∧ (∀ kv ∈ out.Request.Header.h, strings.EqualFold kv.1 "Transfer-Encoding" = true →
          ∃ vs, (kv.1, vs) ∈ src.Header ∧ kv.2 ∈ vs) := by
  refine ⟨_, ConvertRequest_eq _ _ _ _, ?_, ?_⟩
  · rintro ⟨k, v⟩ hmem
    obtain ⟨vs, hm, _, hs⟩ := (mem_convOut_h _ _ _ _ k v).mp hmem
    by_contra hne
    have hk : k = "Content-Length" := hkeys (k, vs) hm (by simpa using hne)
    apply hs
    right
    refine ⟨?_, hk⟩
    simp [skipFlag, isChunked_concat, hlast]
  · rintro ⟨k, v⟩ hmem _
    obtain ⟨vs, hm, hv, _⟩ := (mem_convOut_h _ _ _ _ k v).mp hmem
    exact ⟨vs, hm, hv⟩

/-- C5, amended, at a concrete input: transfer encodings `gzip, Chunked` and a
header map with the keys `Content-Length` and `X`. -/
theorem C5_chunked_headers_witness :
    strings.EqualFold "Chunked" "chunked" = true
    ∧ ∃ out, ConvertRequest 64
        (some { canonicalSource with TransferEncoding := ["gzip"] ++ ["Chunked"] })
        (some emptyCtx) false = (none, some out)
      ∧ (∀ kv ∈ out.Request.Header.h, strings.EqualFold kv.1 "Content-Length" = false)
      ∧ (∀ kv ∈ out.Request.Header.h, strings.EqualFold kv.1 "Transfer-Encoding" = true →
          ∃ vs, (kv.1, vs) ∈ canonicalSource.Header ∧ kv.2 ∈ vs) :=
  ⟨by decide,
    C5_chunked_headers 64 canonicalSource emptyCtx false ["gzip"] "Chunked" (by decide)
      (by decide)⟩

/-- C6, refuted at a concrete input: a source without transfer encoding, with
the declared length 5 and with the header map key `content-length`.  The
content length of the destination is 5, and the destination also holds the
copied `Content-Length` header, spelled `content-length`, with the conflicting
value `9`. -/
theorem C6_lowercase_key_counterexample :
    isChunked (lengthSource io.ReadCloser.nil 5 []).TransferEncoding = false
    ∧ (lengthSource io.ReadCloser.nil 5 []).ContentLength = 5
    ∧ strings.EqualFold "content-length" "Content-Length" = true
    ∧ ∃ out, ConvertRequest 64 (some (lengthSource io.ReadCloser.nil 5 [])) (some emptyCtx)
        true = (none, some out)
      ∧ out.Request.Header.contentLength = some 5
      ∧ ("content-length", "9") ∈ out.Request.Header.h :=
  ⟨by decide, rfl, by decide, convOut 64 _ emptyCtx true, ConvertRequest_eq _ _ _ _, by decide⟩

/-- C6, amended: for a source whose transfer-encoding list does not end in
`chunked` (up to letter case), whose declared `ContentLength` is a known `N`
with `0 ≤ N ≤ maxInt`, and whose header map keys equal to `Content-Length` up
to letter case are spelled exactly `Content-Length`, the content length of the
destination after `ConvertRequest` is exactly `N` and the destination holds no
`Content-Length` header in any spelling, whatever value the source header map
holds under `Content-Length`. -/
theorem C6_known_length (intSize : Nat) (src : http.Request) (dst : fasthttp.RequestCtx)
    (forServer : Bool) (N : Int) (hN0 : 0 ≤ N) (hN : N ≤ maxInt intSize)
    (hnc : ¬ ∃ init last, src.TransferEncoding = init ++ [last]
      ∧ strings.EqualFold last "chunked" = true)
    (hkeys : ∀ kv ∈ src.Header,
      strings.EqualFold kv.1 "Content-Length" = true → kv.1 = "Content-Length") :
    ∃ out, ConvertRequest intSize (some { src with ContentLength := N }) (some dst) forServer
        = (none, some out)
      ∧ out.Request.Header.contentLength = some N
      ∧ ∀ kv ∈ out.Request.Header.h, strings.EqualFold kv.1 "Content-Length" = false := by
  have hc : ¬ isChunked src.TransferEncoding = true := fun h => hnc ((isChunked_iff _).mp h)
  have hb : bodySizeFromLength intSize N = N := bodySizeFromLength_of_range intSize N hN0 hN
  refine ⟨_, ConvertRequest_eq _ _ _ _, ?_, ?_⟩
  · rw [convOut_Header]
    simp [hc, hb, hN0]
  · rintro ⟨k, v⟩ hmem
    obtain ⟨vs, hm, _, hs⟩ := (mem_convOut_h _ _ _ _ k v).mp hmem
    by_contra hne
    have hk : k = "Content-Length" := hkeys (k, vs) hm (by simpa using hne)
    apply hs
    right
    refine ⟨?_, hk⟩
    simp [skipFlag, hb, hN0]

/-- C6, amended, at a concrete input: no transfer encoding, a declared length
of 5 and a source header `Content-Length: 99`. -/
theorem C6_known_length_witness :
    ∃ out, ConvertRequest 64 (some { canonicalSource with ContentLength := 5 })
        (some emptyCtx) false = (none, some out)
      ∧ out.Request.Header.contentLength = some 5
      ∧ ∀ kv ∈ out.Request.Header.h, strings.EqualFold kv.1 "Content-Length" = false :=
  C6_known_length 64 canonicalSource emptyCtx false 5 (by decide) (by decide)
    (by simp [canonicalSource, testSource]) (by decide)

/-- C7, refuted at a concrete input: a source whose header map holds the key
`host`.  The key is not the exact spelling `Host`, so it is copied and the
destination holds a `Host` header, spelled `host`, with the value `a`. -/
theorem C7_lowercase_host_counterexample :
    strings.EqualFold "host" "Host" = true
    ∧ ∃ out, ConvertRequest 64 (some (hostSource "host")) (some emptyCtx) true
        = (none, some out)
      ∧ ("host", "a") ∈ out.Request.Header.h :=
  ⟨by decide, convOut 64 _ emptyCtx true, ConvertRequest_eq _ _ _ _, by decide⟩

/-- C7, amended: for a source header map whose keys equal to `Host` up to
letter case are spelled exactly `Host`, whether or not it has such a key, the
header collection of the destination after a successful `ConvertRequest`
holds no `Host` header in any spelling. -/
theorem C7_no_host_header (intSize : Nat) (src : http.Request) (dst : fasthttp.RequestCtx)
    (forServer : Bool)
    (hkeys : ∀ kv ∈ src.Header, strings.EqualFold kv.1 "Host" = true → kv.1 = "Host") :
    ∃ out, ConvertRequest intSize (some src) (some dst) forServer = (none, some out)
      ∧ ∀ kv ∈ out.Request.Header.h, strings.EqualFold kv.1 "Host" = false := by
  refine ⟨_, ConvertRequest_eq _ _ _ _, ?_⟩
  rintro ⟨k, v⟩ hmem
  obtain ⟨vs, hm, _, hs⟩ := (mem_convOut_h _ _ _ _ k v).mp hmem
  by_contra hne
  exact hs (Or.inl (hkeys (k, vs) hm (by simpa using hne)))

/-- C7, amended, at a concrete input: a source header map with the key `Host`. -/
theorem C7_no_host_header_witness :
    ("Host", ["a"]) ∈ (hostSource "Host").Header
    ∧ ∃ out, ConvertRequest 64 (some (hostSource "Host")) (some emptyCtx) true
        = (none, some out)
      ∧ ∀ kv ∈ out.Request.Header.h, strings.EqualFold kv.1 "Host" = false :=
  ⟨by decide, C7_no_host_header 64 (hostSource "Host") emptyCtx true (by decide)⟩

/-- C8: for a source header map with distinct keys, `copyHeaders` appends to
the destination, for a name with at least one value that is neither `Host` nor
a suppressed `Content-Length`, every value of that name under exactly that
name and in the source's order; a name with an empty value list adds nothing;
so when the destination held no value under the name, its value list for the
name equals the source's. -/
theorem C8_copyHeaders_appends (dst : fasthttp.RequestHeader) (src : http.Header)
    (skipContentLength : Bool) (name : String) (hwf : http.Header.WF src) :
    (http.Header.values src name ≠ [] → name ≠ "Host" →
        ¬ (skipContentLength = true ∧ name = "Content-Length") →
        (copyHeaders dst src skipContentLength).h.filter (fun kv => decide (kv.1 = name))
          = dst.h.filter (fun kv => decide (kv.1 = name))
            ++ (http.Header.values src name).map (fun v => (name, v)))
    ∧ (http.Header.values src name = [] →
        (copyHeaders dst src skipContentLength).h.filter (fun kv => decide (kv.1 = name))
          = dst.h.filter (fun kv => decide (kv.1 = name)))
    ∧ (http.Header.values src name ≠ [] → name ≠ "Host" →
        ¬ (skipContentLength = true ∧ name = "Content-Length") →
        dst.PeekAll name = [] →
        (copyHeaders dst src skipContentLength).PeekAll name = http.Header.values src name) := by
  have key : (copyHeaders dst src skipContentLength).h.filter (fun kv => decide (kv.1 = name))
      = dst.h.filter (fun kv => decide (kv.1 = name))
        ++ (if name = "Host" ∨ (skipContentLength = true ∧ name = "Content-Length") then []
            else (http.Header.values src name).map (fun v => (name, v))) := by
    rw [copyHeaders_eq]
    simp only [List.filter_append, filter_copiedHeaders src skipContentLength name hwf]
  refine ⟨?_, ?_, ?_⟩
  · intro _ hH hC
    have hs : ¬ (name = "Host" ∨ (skipContentLength = true ∧ name = "Content-Length")) := by
      rintro (h | h)
      · exact hH h
      · exact hC h
    rw [key, if_neg hs]
  · intro h0
    rw [key, h0]
    simp
  · intro _ hH hC hd
    have hs : ¬ (name = "Host" ∨ (skipContentLength = true ∧ name = "Content-Length")) := by
      rintro (h | h)
      · exact hH h
      · exact hC h
    unfold fasthttp.RequestHeader.PeekAll at hd ⊢
    rw [key, if_neg hs, List.map_append, hd, List.nil_append, List.map_map]
    simp [Function.comp_def]

/-- C8, at a concrete input: a map with a two-valued `Accept` entry, a `Host`
entry and an entry with no value. -/
theorem C8_copyHeaders_appends_witness :
    http.Header.WF [("Host", ["h"]), ("Accept", ["a/b", "C/D"]), ("Empty", [])]
    ∧ (copyHeaders fasthttp.RequestHeader.reset
        [("Host", ["h"]), ("Accept", ["a/b", "C/D"]), ("Empty", [])] true).PeekAll "Accept"
        = ["a/b", "C/D"] :=
  ⟨by decide,
    (C8_copyHeaders_appends fasthttp.RequestHeader.reset
      [("Host", ["h"]), ("Accept", ["a/b", "C/D"]), ("Empty", [])] true "Accept"
      (by decide)).2.2 (by decide) (by decide) (by decide) (by decide)⟩

/-- C9: after `ConvertRequest` the destination method is the source method when
that is non-empty and `GET` otherwise, and the destination protocol is the
source protocol when that is non-empty and `HTTP/1.1` otherwise. -/
theorem C9_method_and_protocol (intSize : Nat) (src : http.Request)
    (dst : fasthttp.RequestCtx) (forServer : Bool) :
    ∃ out, ConvertRequest intSize (some src) (some dst) forServer = (none, some out)
      ∧ out.Request.Header.method = (if src.Method ≠ "" then src.Method else "GET")
      ∧ out.Request.Header.proto = (if src.Proto ≠ "" then src.Proto else "HTTP/1.1") := by
  refine ⟨convOut intSize src dst forServer, ConvertRequest_eq _ _ _ _, ?_, ?_⟩
  · rw [convOut_Header]
    by_cases h : src.Method = "" <;> simp [h]
  · rw [convOut_Header]
    by_cases h : src.Proto = "" <;> simp [h]

/-- C10: the host of the destination after `ConvertRequest` is the source host
when that is non-empty (also when the URL carries a different host), otherwise
the host of the URL when a URL is present and its host is non-empty; when both
are empty the host stays at its reset default. -/
theorem C10_host_resolution (intSize : Nat) (src : http.Request) (dst : fasthttp.RequestCtx)
    (forServer : Bool) :
    ∃ out, ConvertRequest intSize (some src) (some dst) forServer = (none, some out)
      ∧ out.Request.uri.host =
        (if src.Host ≠ "" then src.Host
         else
          match src.URL with
          | some u => if u.Host ≠ "" then u.Host else fasthttp.URI.reset.host
          | none => fasthttp.URI.reset.host) := by
  refine ⟨convOut intSize src dst forServer, ConvertRequest_eq _ _ _ _, ?_⟩
  rw [convOut_uri]
  show (if resolvedHost src ≠ "" then resolvedHost src else (baseURI src forServer).host) = _
  rcases hU : src.URL with _ | u
  · rw [baseURI_none src forServer hU]
    by_cases hH : src.Host = "" <;> simp [resolvedHost, hU, hH]
  · by_cases hH : src.Host = ""
    · by_cases hu : u.Host = ""
      · have hb : (baseURI src forServer).host = fasthttp.URI.reset.host := by
          unfold baseURI
          split_ifs
          · rfl
          · simp [hU, populate_eq, hu]
        simp [resolvedHost, hU, hH, hu, hb]
      · simp [resolvedHost, hU, hH, hu]
    · simp [resolvedHost, hU, hH]

/-- C11: after `ConvertRequest` exactly one body representation is active on
the destination.  It is the streaming body that reads from `src.Body` with the
resolved declared size exactly when `src.Body` is neither nil nor `http.NoBody`;
otherwise it is the explicit empty buffered body, and a stream is attached in
the first case only. -/
theorem C11_body_representation (intSize : Nat) (src : http.Request)
    (dst : fasthttp.RequestCtx) (forServer : Bool) :
    ∃ out, ConvertRequest intSize (some src) (some dst) forServer = (none, some out)
      ∧ (out.Request.body
            = fasthttp.Body.stream src.Body (bodySizeFromLength intSize src.ContentLength)
          ↔ (src.Body ≠ io.ReadCloser.nil ∧ src.Body ≠ http.NoBody))
      ∧ (¬ (src.Body ≠ io.ReadCloser.nil ∧ src.Body ≠ http.NoBody) →
          out.Request.body = fasthttp.Body.buffered [])
      ∧ ((∃ r n, out.Request.body = fasthttp.Body.stream r n)
          ↔ (src.Body ≠ io.ReadCloser.nil ∧ src.Body ≠ http.NoBody)) := by
  refine ⟨_, ConvertRequest_eq _ _ _ _, ?_, ?_, ?_⟩
  · rw [convOut_body]
    by_cases h : src.Body ≠ io.ReadCloser.nil ∧ src.Body ≠ http.NoBody
    · simp [h]
    · simp only [h, if_false, iff_false]
      intro hc
      cases hc
  · intro h
    rw [convOut_body, if_neg h]
  · rw [convOut_body]
    by_cases h : src.Body ≠ io.ReadCloser.nil ∧ src.Body ≠ http.NoBody
    · rw [if_pos h]
      exact ⟨fun _ => h, fun _ => ⟨_, _, rfl⟩⟩
    · rw [if_neg h]
      constructor
      · rintro ⟨r, n, hc⟩
        cases hc
      · exact fun h1 => absurd h1 h

/-- C12: `bodySizeFromLength n` is `-1` when `n < 0` or `n > maxInt`, and `n`
itself otherwise, without truncation or wrap-around; `bodySizeFromLength 0` is
`0`; the result lies in `-1 .. maxInt`; and `maxInt` is the largest `int` of
the platform, `2^63 - 1` for a 64-bit and `2^31 - 1` for a 32-bit `int`. -/
theorem C12_bodySizeFromLength (intSize : Nat) (n : Int) :
    ((n < 0 ∨ n > maxInt intSize) → bodySizeFromLength intSize n = -1)
    ∧ (¬ (n < 0 ∨ n > maxInt intSize) → bodySizeFromLength intSize n = n)
    ∧ bodySizeFromLength intSize 0 = 0
    ∧ (-1 ≤ bodySizeFromLength intSize n ∧ bodySizeFromLength intSize n ≤ maxInt intSize)
    ∧ maxInt 64 = 2 ^ 63 - 1 ∧ maxInt 32 = 2 ^ 31 - 1 := by
  have hmax : 0 ≤ maxInt intSize := by unfold maxInt; positivity
  refine ⟨bodySizeFromLength_unknown intSize n, ?_, ?_, ?_, by decide, by decide⟩
  · intro h
    exact bodySizeFromLength_of_range intSize n (by omega) (by omega)
  · exact bodySizeFromLength_of_range intSize 0 le_rfl hmax
  · by_cases h : n < 0 ∨ n > maxInt intSize
    · rw [bodySizeFromLength_unknown intSize n h]
      omega
    · rw [bodySizeFromLength_of_range intSize n (by omega) (by omega)]
      omega

/-- C13, refuted at a concrete input: a source that is not chunked, has a body
and an unknown size (`ContentLength = -1`), and whose header map holds the key
`content-length`.  The content length of the destination is `-1`, and the
incoming `Content-Length` header, spelled `content-length`, is copied although
the source has a body. -/
theorem C13_lowercase_key_counterexample :
    isChunked (lengthSource (io.ReadCloser.stream 1) (-1) []).TransferEncoding = false
    ∧ (lengthSource (io.ReadCloser.stream 1) (-1) []).Body ≠ io.ReadCloser.nil
    ∧ (lengthSource (io.ReadCloser.stream 1) (-1) []).Body ≠ http.NoBody
    ∧ strings.EqualFold "content-length" "Content-Length" = true
    ∧ ∃ out, ConvertRequest 64 (some (lengthSource (io.ReadCloser.stream 1) (-1) []))
        (some emptyCtx) true = (none, some out)
      ∧ out.Request.Header.contentLength = some (-1)
      ∧ ("content-length", "9") ∈ out.Request.Header.h :=
  ⟨by decide, by decide, by decide, by decide,
    convOut 64 _ emptyCtx true, ConvertRequest_eq _ _ _ _, by decide⟩

/-- C13, amended: for a source header map whose keys equal to `Content-Length`
up to letter case are spelled exactly `Content-Length`, and a source that is
not chunked and whose declared size is unknown (`ContentLength` negative or
above `maxInt`): with a body the content length of the destination is `-1` and
no `Content-Length` header, in any spelling, is copied; without a body
`ConvertRequest` leaves the content length at its reset value and the
destination holds exactly the `Content-Length` values of the source header
map.  For every such header map, a `Content-Length` value is on the
destination exactly when the source header map holds it and the source is not
chunked, its size is unknown and it has no body. -/
theorem C13_unknown_size (intSize : Nat) (src : http.Request) (dst : fasthttp.RequestCtx)
    (forServer : Bool)
    (hkeys : ∀ kv ∈ src.Header,
      strings.EqualFold kv.1 "Content-Length" = true → kv.1 = "Content-Length") :
    ∃ out, ConvertRequest intSize (some src) (some dst) forServer = (none, some out)
      ∧ ((¬ ∃ init last, src.TransferEncoding = init ++ [last]
              ∧ strings.EqualFold last "chunked" = true) →
          (src.ContentLength < 0 ∨ src.ContentLength > maxInt intSize) →
          (src.Body ≠ io.ReadCloser.nil ∧ src.Body ≠ http.NoBody) →
          out.Request.Header.contentLength = some (-1)
          ∧ ∀ kv ∈ out.Request.Header.h, strings.EqualFold kv.1 "Content-Length" = false)
      ∧ ((¬ ∃ init last, src.TransferEncoding = init ++ [last]
              ∧ strings.EqualFold last "chunked" = true) →
          (src.ContentLength < 0 ∨ src.ContentLength > maxInt intSize) →
          ¬ (src.Body ≠ io.ReadCloser.nil ∧ src.Body ≠ http.NoBody) →
          out.Request.Header.contentLength = fasthttp.RequestHeader.reset.contentLength
          ∧ ∀ k v, strings.EqualFold k "Content-Length" = true →
              ((k, v) ∈ out.Request.Header.h ↔ ∃ vs, (k, vs) ∈ src.Header ∧ v ∈ vs))
      ∧ (∀ k v, strings.EqualFold k "Content-Length" = true →
          ((k, v) ∈ out.Request.Header.h ↔
            ((∃ vs, (k, vs) ∈ src.Header ∧ v ∈ vs)
              ∧ (¬ ∃ init last, src.TransferEncoding = init ++ [last]
                  ∧ strings.EqualFold last "chunked" = true)
              ∧ (src.ContentLength < 0 ∨ src.ContentLength > maxInt intSize)
              ∧ ¬ (src.Body ≠ io.ReadCloser.nil ∧ src.Body ≠ http.NoBody)))) := by
  have key : ∀ k v, strings.EqualFold k "Content-Length" = true →
      ((k, v) ∈ (convOut intSize src dst forServer).Request.Header.h ↔
        ((∃ vs, (k, vs) ∈ src.Header ∧ v ∈ vs) ∧ ¬ skipFlag intSize src = true)) := by
    intro k v hfold
    rw [mem_convOut_h]
    constructor
    · rintro ⟨vs, hm, hv, hs⟩
      have hk : k = "Content-Length" := hkeys (k, vs) hm hfold
      exact ⟨⟨vs, hm, hv⟩, fun hf => hs (Or.inr ⟨hf, hk⟩)⟩
    · rintro ⟨⟨vs, hm, hv⟩, hf⟩
      have hk : k = "Content-Length" := hkeys (k, vs) hm hfold
      refine ⟨vs, hm, hv, ?_⟩
      rintro (h | h)
      · rw [hk] at h
        exact absurd h (by decide)
      · exact hf h.1
  refine ⟨_, ConvertRequest_eq _ _ _ _, ?_, ?_, ?_⟩
  · intro hnc hunk hB
    have hc : ¬ isChunked src.TransferEncoding = true := fun h => hnc ((isChunked_iff _).mp h)
    have hb : bodySizeFromLength intSize src.ContentLength = -1 :=
      bodySizeFromLength_unknown _ _ hunk
    refine ⟨?_, ?_⟩
    · rw [convOut_Header]
      simp [hc, hb, hB]
    · rintro ⟨k, v⟩ hmem
      by_contra hne
      have hfold : strings.EqualFold k "Content-Length" = true := by simpa using hne
      exact ((key k v hfold).mp hmem).2 ((skipFlag_iff _ _).mpr (Or.inr (Or.inr hB)))
  · intro hnc hunk hB
    have hc : ¬ isChunked src.TransferEncoding = true := fun h => hnc ((isChunked_iff _).mp h)
    have hb : bodySizeFromLength intSize src.ContentLength = -1 :=
      bodySizeFromLength_unknown _ _ hunk
    refine ⟨?_, ?_⟩
    · rw [convOut_Header]
      simp [hc, hb, hB, fasthttp.RequestHeader.reset]
    · intro k v hfold
      rw [key k v hfold]
      constructor
      · exact fun h => h.1
      · intro h
        refine ⟨h, ?_⟩
        rw [skipFlag_iff]
        rintro (h1 | h1 | h1)
        · exact hnc h1
        · omega
        · exact hB h1
  · intro k v hfold
    rw [key k v hfold, skipFlag_iff]
    constructor
    · rintro ⟨h, hs⟩
      refine ⟨h, fun h1 => hs (Or.inl h1), ?_, fun h1 => hs (Or.inr (Or.inr h1))⟩
      by_contra hcon
      exact hs (Or.inr (Or.inl (by omega)))
    · rintro ⟨h, h1, h2, h3⟩
      refine ⟨h, ?_⟩
      rintro (h4 | h4 | h4)
      · exact h1 h4
      · omega
      · exact h3 h4

/-- C13, amended, at a concrete input: a source that is not chunked, has no
body, an unknown size and the header `Content-Length: 99`, which is copied. -/
theorem C13_unknown_size_witness :
    (∃ out, ConvertRequest 64 (some { canonicalSource with ContentLength := -1 })
        (some emptyCtx) true = (none, some out)
      ∧ ("Content-Length", "99") ∈ out.Request.Header.h)
    ∧ ∀ kv ∈ ({ canonicalSource with ContentLength := -1 } : http.Request).Header,
        strings.EqualFold kv.1 "Content-Length" = true → kv.1 = "Content-Length" := by
  have hk : ∀ kv ∈ ({ canonicalSource with ContentLength := -1 } : http.Request).Header,
      strings.EqualFold kv.1 "Content-Length" = true → kv.1 = "Content-Length" := by decide
  obtain ⟨out, ho, _, h2, _⟩ :=
    C13_unknown_size 64 { canonicalSource with ContentLength := -1 } emptyCtx true hk
  refine ⟨⟨out, ho, ?_⟩, hk⟩
  exact ((h2 (by simp [canonicalSource, testSource]) (by decide) (by decide)).2
    "Content-Length" "99" (by decide)).mpr ⟨["99"], by decide, by decide⟩

/-- C14: `remoteAddrFromRequest` is total and returns the zero address for a
nil request and for an empty `RemoteAddr`; without a host:port split it returns
the bare IP with port 0 when the text parses as an IP and the zero address when
it does not; with a host:port split it parses the IP and the port
independently, an unparsable host giving the nil IP and an unparsable port
giving port 0.  On a 32-bit and on a 64-bit platform: the empty string gives
the zero address, `10.0.0.1` gives IP 10.0.0.1 and port 0, `10.0.0.1:8080`
gives IP 10.0.0.1 and port 8080, `bad-host:notaport` gives no IP and port 0,
`bad-host:8080` keeps the port and `10.0.0.1:notaport` keeps the IP. -/
theorem C14_remoteAddr_normalization (intSize : Nat) (r : http.Request) :
    remoteAddrFromRequest intSize none = net.TCPAddr.zero
    ∧ (r.RemoteAddr = "" → remoteAddrFromRequest intSize (some r) = net.TCPAddr.zero)
    ∧ (r.RemoteAddr ≠ "" → net.SplitHostPort r.RemoteAddr = none →
        remoteAddrFromRequest intSize (some r)
          = if net.ParseIP r.RemoteAddr = [] then net.TCPAddr.zero
            else { IP := net.ParseIP r.RemoteAddr, Port := 0, Zone := "" })
    ∧ (∀ host port, r.RemoteAddr ≠ "" → net.SplitHostPort r.RemoteAddr = some (host, port) →
        remoteAddrFromRequest intSize (some r)
          = { IP := net.ParseIP host, Port := (strconv.Atoi intSize port).getD 0, Zone := "" })
    ∧ (∀ w ∈ [32, 64],
        remoteAddrFromRequest w (some (remoteSource "")) = net.TCPAddr.zero
        ∧ remoteAddrFromRequest w (some (remoteSource "10.0.0.1"))
            = { IP := net.IPv4 10 0 0 1, Port := 0, Zone := "" }
        ∧ remoteAddrFromRequest w (some (remoteSource "not-an-ip")) = net.TCPAddr.zero
        ∧ remoteAddrFromRequest w (some (remoteSource "10.0.0.1:8080"))
            = { IP := net.IPv4 10 0 0 1, Port := 8080, Zone := "" }
        ∧ remoteAddrFromRequest w (some (remoteSource "bad-host:notaport"))
            = { IP := [], Port := 0, Zone := "" }
        ∧ remoteAddrFromRequest w (some (remoteSource "bad-host:8080"))
            = { IP := [], Port := 8080, Zone := "" }
        ∧ remoteAddrFromRequest w (some (remoteSource "10.0.0.1:notaport"))
            = { IP := net.IPv4 10 0 0 1, Port := 0, Zone := "" }) := by
  refine ⟨rfl, ?_, remoteAddr_nosplit intSize r, ?_, by decide⟩
  · intro h
    unfold remoteAddrFromRequest
    simp only [h, if_true]
  · intro host port hne hs
    exact remoteAddr_split intSize r host port hne hs

/-- C15, the code at the failing input `10.0.0.1:-5`: the address splits into
host `10.0.0.1` and port text `-5`, `strconv.Atoi` accepts the sign, and the
returned address has the negative port `-5`, on a 64-bit and on a 32-bit
platform alike; the port text `+80` is accepted as 80. -/
theorem C15_negative_port :
    net.SplitHostPort "10.0.0.1:-5" = some ("10.0.0.1", "-5")
    ∧ strconv.Atoi 64 "-5" = some (-5)
    ∧ remoteAddrFromRequest 64 (some (remoteSource "10.0.0.1:-5"))
        = { IP := net.IPv4 10 0 0 1, Port := -5, Zone := "" }
    ∧ (remoteAddrFromRequest 64 (some (remoteSource "10.0.0.1:-5"))).Port < 0
    ∧ (remoteAddrFromRequest 32 (some (remoteSource "10.0.0.1:-5"))).Port < 0
    ∧ (remoteAddrFromRequest 64 (some (remoteSource "10.0.0.1:+80"))).Port = 80 := by
  decide

/-- C16: for a source URL with a non-empty `Opaque` value,
`populateURIFromRequest` leaves the destination URI with exactly that value as
its path and with an empty query string, whatever `Path`, `RawPath` and
`RawQuery` the source URL holds. -/
theorem C16_opaque_path (dst : fasthttp.URI) (src : url.URL) (h : src.Opaque ≠ "") :
    ∃ out, populateURIFromRequest (some dst) (some src) = some out
      ∧ out.path = src.Opaque ∧ out.queryString = "" := by
  refine ⟨_, populate_eq dst src, ?_, ?_⟩ <;> simp [h]

/-- C16, at a concrete input: `Opaque = mailto:a@b.com` together with a path
and a query. -/
theorem C16_opaque_path_witness :
    mailtoURL.Opaque = "mailto:a@b.com" ∧ mailtoURL.Path = "/ignored"
    ∧ mailtoURL.RawQuery = "x=1"
    ∧ ∃ out, populateURIFromRequest (some staleURI) (some mailtoURL) = some out
      ∧ out.path = mailtoURL.Opaque ∧ out.queryString = "" :=
  ⟨rfl, rfl, rfl, C16_opaque_path staleURI mailtoURL (by decide)⟩

/-- C17: for a source URL with an empty `Opaque` value,
`populateURIFromRequest` sets the destination path to the escaped path of the
source when that is non-empty and to `/` when it is empty, so the path is
never empty, and sets the destination query string to `RawQuery` verbatim. -/
theorem C17_hierarchical_path (dst : fasthttp.URI) (src : url.URL) (h : src.Opaque = "") :
    ∃ out, populateURIFromRequest (some dst) (some src) = some out
      ∧ out.path = (if src.EscapedPath ≠ "" then src.EscapedPath else "/")
      ∧ out.path ≠ ""
      ∧ out.queryString = src.RawQuery := by
  refine ⟨_, populate_eq dst src, ?_, ?_, ?_⟩
  · by_cases hp : src.EscapedPath = "" <;> simp [h, hp]
  · by_cases hp : src.EscapedPath = "" <;> simp [h, hp]
  · simp [h]

/-- C17, at a concrete input: the path `/a b`, whose escaped form is
`/a%20b`, and the query `q=%41+b`. -/
theorem C17_hierarchical_path_witness :
    spaceURL.Opaque = "" ∧ spaceURL.EscapedPath = "/a%20b" ∧ spaceURL.RawQuery = "q=%41+b"
    ∧ ∃ out, populateURIFromRequest (some staleURI) (some spaceURL) = some out
      ∧ out.path = (if spaceURL.EscapedPath ≠ "" then spaceURL.EscapedPath else "/")
      ∧ out.path ≠ ""
      ∧ out.queryString = spaceURL.RawQuery :=
  ⟨rfl, by decide, rfl, C17_hierarchical_path staleURI spaceURL (by decide)⟩

/-- C18, refuted at a concrete input: a destination URI that holds the
password `stale` and a source whose userinfo has the username `bob` and no
password.  The password of the destination is overwritten with the empty
string, and the result is the same as for an explicitly empty password. -/
theorem C18_password_counterexample :
    staleURI.password = "stale"
    ∧ (populateURIFromRequest (some staleURI)
        (some (userURL { username := "bob", password := "", passwordSet := false }))).map
        (fun u => u.password) = some ""
    ∧ populateURIFromRequest (some staleURI)
        (some (userURL { username := "bob", password := "", passwordSet := false }))
      = populateURIFromRequest (some staleURI)
        (some (userURL { username := "bob", password := "", passwordSet := true })) := by
  decide

/-- C18, amended: `populateURIFromRequest` always writes the username and the
password of the destination.  With userinfo on the source the username is the
source's; the password is the source's when the userinfo supplies one (by its
presence flag, also when it is empty) and the empty string when it supplies
none.  Without userinfo both are cleared. -/
theorem C18_userinfo (dst : fasthttp.URI) (src : url.URL) :
    ∃ out, populateURIFromRequest (some dst) (some src) = some out
      ∧ (∀ user, src.User = some user →
          out.username = user.Username
          ∧ (user.Password.2 = true → out.password = user.Password.1)
          ∧ (user.Password.2 = false → out.password = ""))
      ∧ (src.User = none → out.username = "" ∧ out.password = "") := by
  refine ⟨_, populate_eq dst src, ?_, ?_⟩
  · intro user hu
    simp only [hu, url.Userinfo.Username, url.Userinfo.Password]
    refine ⟨trivial, ?_, ?_⟩ <;> intro h <;> simp [h]
  · intro hu
    simp [hu]

/-- C19: for every source and every two prior states of the destination,
`ConvertRequest` returns the same error and leaves the same destination
(request line, URI, headers, body, content length, close flag and remote
address), so the result depends on the source and the mode only; and the
close flag of the destination equals `src.Close`. -/
theorem C19_independent_of_prior_state (intSize : Nat) (src : http.Request)
    (d1 d2 : fasthttp.RequestCtx) (forServer : Bool) :
    ConvertRequest intSize (some src) (some d1) forServer
      = ConvertRequest intSize (some src) (some d2) forServer
    ∧ ∃ out, ConvertRequest intSize (some src) (some d1) forServer = (none, some out)
      ∧ out.Request.Header.connectionClose = src.Close := by
  refine ⟨?_, _, ConvertRequest_eq _ _ _ _, ?_⟩
  · rw [ConvertRequest_eq, ConvertRequest_eq, convOut_eq, convOut_eq]
    rfl
  · rw [convOut_Header]

/-- C20: `copyHeaders` compares the map key exactly.  A pair is on the
destination after the copy exactly when it was there before or the source map
holds the value under a key other than `Host` and, with suppression on, other
than `Content-Length`.  So every value under the key `host` is appended, with
suppression on every value under the key `content-length` is appended, and a
map that holds both spellings loses only `Host` and `Content-Length`. -/
theorem C20_exact_key_filter (dst : fasthttp.RequestHeader) (src : http.Header)
    (skipContentLength : Bool) :
    (∀ k v, (k, v) ∈ (copyHeaders dst src skipContentLength).h ↔
        ((k, v) ∈ dst.h
          ∨ ∃ vs, (k, vs) ∈ src ∧ v ∈ vs
              ∧ ¬ (k = "Host" ∨ (skipContentLength = true ∧ k = "Content-Length"))))
    ∧ (∀ vs v, ("host", vs) ∈ src → v ∈ vs →
        ("host", v) ∈ (copyHeaders dst src skipContentLength).h)
    ∧ (∀ vs v, ("content-length", vs) ∈ src → v ∈ vs →
        ("content-length", v) ∈ (copyHeaders dst src true).h)
    ∧ (copyHeaders fasthttp.RequestHeader.reset
          [("host", ["a", "b"]), ("Host", ["c"]), ("content-length", ["5"]),
            ("Content-Length", ["6"])] true).h
        = [("host", "a"), ("host", "b"), ("content-length", "5")] := by
  have key : ∀ (skip : Bool) k v, (k, v) ∈ (copyHeaders dst src skip).h ↔
      ((k, v) ∈ dst.h
        ∨ ∃ vs, (k, vs) ∈ src ∧ v ∈ vs
            ∧ ¬ (k = "Host" ∨ (skip = true ∧ k = "Content-Length"))) := by
    intro skip k v
    rw [copyHeaders_eq]
    show (k, v) ∈ dst.h ++ copiedHeaders src skip ↔ _
    rw [List.mem_append, mem_copiedHeaders]
  refine ⟨key skipContentLength, ?_, ?_, by decide⟩
  · intro vs v hm hv
    rw [key]
    refine Or.inr ⟨vs, hm, hv, ?_⟩
    rintro (h | h)
    · exact absurd h (by decide)
    · exact absurd h.2 (by decide)
  · intro vs v hm hv
    rw [key]
    refine Or.inr ⟨vs, hm, hv, ?_⟩
    rintro (h | h)
    · exact absurd h (by decide)
    · exact absurd h.2 (by decide)

end httpadaptor
